import Mathlib

/-!
Verification of the runtime algorithm-selection engine of PyNN
(`src/pydtnn/utils/best_of.py`).

The engine (`BestOf`) benchmarks a list of alternative implementations on
live traffic, keyed by an opaque "problem size", using a round-robin
sampler, a median-based pruning/selection rule, and an execution tree that
blocks a parent node's convergence while nested tuned calls beneath it are
still exploring.

Shallow embedding conventions:
* Problem sizes, execution ids and callables are opaque in the source; they
  are represented by `Nat` identifiers (only equality is ever used on them).
* Elapsed wall times are `ℚ` values supplied as inputs to each call (timing
  is external nondeterminism).
* Python `defaultdict`s become total functions initialised to the default;
  the inner `_blocked_by` dicts, whose value sets are iterated by
  `is_blocked`, become association lists.
* The result of a call is abstracted to the identity of the callable that
  was invoked (`CallOutcome.invoked f`): alternatives are external
  collaborators consumed only through their call signature and return value,
  so identifying the callable identifies the result.
* CPython exceptions that escape `__call__` become explicit error outcomes,
  carrying the state as mutated up to the raise point.
-/

/-- Pointwise update of a total-function map (`defaultdict` assignment). -/
def upd {κ α : Type} [DecidableEq κ] (m : κ → α) (k : κ) (v : α) : κ → α :=
  fun x => if x = k then v else m x

/-- Lookup in an association list (Python `dict` access returning `None` when
the key is absent). -/
def alGet {κ α : Type} [DecidableEq κ] (l : List (κ × α)) (k : κ) : Option α :=
  (l.find? (fun p => p.1 = k)).map (·.2)

/-- Assignment into an association list (Python `dict.__setitem__`): replaces
the value if the key is present, otherwise appends the pair. -/
def alSet {κ α : Type} [DecidableEq κ] (l : List (κ × α)) (k : κ) (v : α) : List (κ × α) :=
  if (l.find? (fun p => p.1 = k)).isSome then
    l.map (fun p => if p.1 = k then (k, v) else p)
  else l ++ [(k, v)]

/-- Key removal from an association list (Python `dict.pop` with a suppressed
`KeyError`). -/
def alPop {κ α : Type} [DecidableEq κ] (l : List (κ × α)) (k : κ) : List (κ × α) :=
  l.filter (fun p => !(decide (p.1 = k)))

/-- Python list subscript `l[i]`, supporting negative indices; `none` models
an `IndexError`. -/
def pyGet {α : Type} (l : List α) (i : Int) : Option α :=
  if 0 ≤ i then l[i.toNat]?
  else if 0 ≤ i + l.length then l[(i + l.length).toNat]? else none

/-- Python list item assignment `l[i] = v`, supporting negative indices.
An out-of-range index leaves the list unchanged (CPython raises there; the
engine never reaches that case after a successful dispatch). -/
def pySet {α : Type} (l : List α) (i : Int) (v : α) : List α :=
  if 0 ≤ i then l.set i.toNat v
  else if 0 ≤ i + l.length then l.set (i + l.length).toNat v else l

/-- Insertion of a rational into a sorted list (helper for `medianQ`). -/
def insertSorted (x : ℚ) : List ℚ → List ℚ
  | [] => [x]
  | y :: ys => if x ≤ y then x :: y :: ys else y :: insertSorted x ys

/-- Insertion sort over rationals (the sorting performed by `np.median`). -/
def sortQ : List ℚ → List ℚ
  | [] => []
  | x :: xs => insertSorted x (sortQ xs)

/-- Median of a sample list as computed by `np.median`: middle element of
the sorted list, or the average of the two middle elements; `none` models
the NaN produced for an empty list. -/
def medianQ (l : List ℚ) : Option ℚ :=
  let s := sortQ l
  let n := s.length
  if n = 0 then none
  else if n % 2 = 1 then s[n / 2]?
  else match s[n / 2 - 1]?, s[n / 2]? with
    | some a, some b => some ((a + b) / 2)
    | _, _ => none

/-- Python `<` on floats where `none` stands for NaN: any comparison with
NaN is false. -/
def nanLt : Option ℚ → Option ℚ → Bool
  | some a, some b => a < b
  | _, _ => false

/-- Python `<=` on floats where `none` stands for NaN. -/
def nanLe : Option ℚ → Option ℚ → Bool
  | some a, some b => a ≤ b
  | _, _ => false

/-- Python `==` on floats where `none` stands for NaN (NaN compares unequal
to everything, including itself). -/
def nanEq : Option ℚ → Option ℚ → Bool
  | some a, some b => a = b
  | _, _ => false

/-- Multiplication of a possibly-NaN float by a plain float. -/
def nanMul (o : Option ℚ) (c : ℚ) : Option ℚ := o.map (· * c)

/-- Python `min` over a list of possibly-NaN floats: keeps the running
minimum, replacing it only when a strictly smaller element appears (NaN
never compares smaller, and an initial NaN is never replaced). `none` on an
empty list models the `ValueError` CPython raises. -/
def pyMin (l : List (Option ℚ)) : Option ℚ :=
  match l with
  | [] => none
  | x :: xs => xs.foldl (fun acc y => if nanLt y acc then y else acc) x

/-- Python `list.index` with float equality (`nanEq`); `none` models the
`ValueError` raised when no element matches. -/
def pyIndex (l : List (Option ℚ)) (v : Option ℚ) : Option Nat :=
  match l with
  | [] => none
  | x :: xs => if nanEq x v then some 0 else (pyIndex xs v).map (· + 1)

/-- First index `≥ i` whose entry satisfies the pruning-liveness test, as
scanned by the `for i in range(current_alternative, len(best_times))` loop;
the list argument is the suffix of `best_times` starting at `i`. -/
def scanLive (thr : Option ℚ) : List (Option ℚ) → Nat → Option Nat
  | [], _ => none
  | x :: xs, i => if nanLe x thr then some i else scanLive thr xs (i + 1)

/-- One alternative implementation: a single callable (`stages == 1`) or an
ordered list of per-stage callables (pipeline mode). Callables are opaque
identifiers. -/
inductive AltImpl where
  | single (f : Nat)
  | pipe (fs : List Nat)
deriving DecidableEq

/-- Constructor-time configuration of a `BestOf` registry (the arguments of
`BestOf.__init__` that the engine keeps). -/
structure BestOfConfig where
  name : String
  alternatives : List (String × AltImpl)
  rounds : Nat
  pruning_speedup : ℚ
  prune_after_round : Nat
  stages : Nat

/-- Number of registered alternatives (`self._total_alternatives`). -/
def BestOfConfig.total_alternatives (cfg : BestOfConfig) : Nat :=
  cfg.alternatives.length

/-- Shape check of one alternative against the stage count, mirroring the
constructor assertions of `BestOf.__init__`. -/
def altOk (stages : Nat) (a : String × AltImpl) : Bool :=
  match a.2 with
  | .single _ => stages = 1
  | .pipe fs => decide (1 < stages) && decide (fs.length = stages)

/-- The conjunction of the constructor assertions of `BestOf.__init__`:
`stages ≥ 1`, `rounds ≥ 1`, `pruning_speedup > 1`, and every alternative
shaped to match the stage count. -/
def BestOfConfig.valid (cfg : BestOfConfig) : Bool :=
  decide (1 ≤ cfg.stages) && decide (1 ≤ cfg.rounds) &&
  decide ((1 : ℚ) < cfg.pruning_speedup) && cfg.alternatives.all (altOk cfg.stages)

/-- Per-registry learned state: the per-problem-size `defaultdict`s of
`BestOf` (`best_idx`, `best_name`, `best_method`, `best_pipeline`,
`_current_round`, `_current_alternative`, `_times`, `_stages_times`).
`best_method`/`best_pipeline` store whatever object `alternatives[i][1]`
is, as the source does. -/
structure TuneState where
  best_idx : Nat → Int
  best_name : Nat → String
  best_method : Nat → Option AltImpl
  best_pipeline : Nat → Option AltImpl
  current_round : Nat → Nat
  current_alternative : Nat → Nat
  times : Nat → List (List ℚ)
  stages_times : Nat → List (List (Option ℚ))

/-- Initial tuning state produced by `BestOf.__init__`: every per-size entry
at its `defaultdict` default. -/
def initTune (cfg : BestOfConfig) : TuneState where
  best_idx := fun _ => -1
  best_name := fun _ => "None"
  best_method := fun _ => none
  best_pipeline := fun _ => none
  current_round := fun _ => 0
  current_alternative := fun _ => 0
  times := fun _ => List.replicate cfg.total_alternatives []
  stages_times := fun _ => List.replicate cfg.total_alternatives (List.replicate cfg.stages none)

/-- The inner `evolve` helper of `BestOf.__call__`: advance the cursor to
`(alt + 1) % total_alternatives` and bump the round on wrap, but only in
single-stage mode or when the terminal pipeline stage just completed. -/
def evolve (cfg : BestOfConfig) (stage : Int) (alt round : Nat) : Nat × Nat :=
  if cfg.stages = 1 ∨ (1 < cfg.stages ∧ stage = (cfg.stages : Int) - 1) then
    let a := (alt + 1) % cfg.total_alternatives
    (a, if a = 0 then round + 1 else round)
  else (alt, round)

/-- Sample-recording phase of `BestOf.__call__` (the block starting at
"Record execution time and evolve"): single-stage mode appends the elapsed
time and evolves; pipeline mode stores the stage time in the per-alternative
stage buffer and, on the terminal stage, appends the buffer sum when the
buffer is complete (then evolves) and resets the buffer indexed by the
now-current alternative. Returns the updated state and the local
`(current_alternative, current_round)` pair. -/
def recordPhase (cfg : BestOfConfig) (t : TuneState) (ps : Nat) (stage : Int)
    (cur : Nat) (elapsed : ℚ) : TuneState × Nat × Nat :=
  let round0 := t.current_round ps
  if cfg.stages = 1 then
    let tps := t.times ps
    let t1 := { t with times := upd t.times ps (tps.set cur ((tps[cur]?.getD []) ++ [elapsed])) }
    let c := evolve cfg stage cur round0
    (t1, c)
  else
    let stps := t.stages_times ps
    let buf1 := pySet (stps[cur]?.getD []) stage (some elapsed)
    let t1 := { t with stages_times := upd t.stages_times ps (stps.set cur buf1) }
    if stage = (cfg.stages : Int) - 1 then
      if buf1.all (fun o => o.isSome) then
        let pipeSum := buf1.foldl (fun acc o => acc + o.getD 0) 0
        let tps := t1.times ps
        let t2 := { t1 with times := upd t1.times ps (tps.set cur ((tps[cur]?.getD []) ++ [pipeSum])) }
        let c := evolve cfg stage cur round0
        let reset := (t2.stages_times ps).set c.1 (List.replicate cfg.stages none)
        let t3 := { t2 with stages_times := upd t2.stages_times ps reset }
        (t3, c)
      else
        let reset := (t1.stages_times ps).set cur (List.replicate cfg.stages none)
        let t2 := { t1 with stages_times := upd t1.stages_times ps reset }
        (t2, cur, round0)
    else (t1, cur, round0)

/-- Outcome of the pruning/selection block: no selection was made (guard
failed or only the pruning scan ran), a best alternative was selected, or
CPython would have raised inside the block (only reachable from states where
some alternative has an empty sample list). -/
inductive DecideFlag where
  | noSelection
  | selected
  | crash
deriving DecidableEq

/-- Pruning/selection phase of `BestOf.__call__` (the block guarded by
`current_alternative == 0 and current_round >= min(prune_after_round,
total_rounds)`): computes the per-alternative medians, selects the first
alternative attaining the minimum median when the round budget is exhausted
or exactly one alternative is below the pruning threshold, and otherwise
advances the local cursor to the first still-live index. Returns the updated
state, the local cursor, and what happened. -/
def decidePhase (cfg : BestOfConfig) (t : TuneState) (ps cur round : Nat) :
    TuneState × Nat × DecideFlag :=
  if cur = 0 ∧ min cfg.prune_after_round cfg.rounds ≤ round then
    let bts := (t.times ps).map medianQ
    let minTime := pyMin bts
    let thr := nanMul minTime cfg.pruning_speedup
    let below := bts.filter (fun x => nanLe x thr)
    if round = cfg.rounds ∨ below.length = 1 then
      match pyIndex bts minTime with
      | none => (t, cur, .crash)
      | some bi =>
        let t1 := { t with best_idx := upd t.best_idx ps (bi : Int) }
        match cfg.alternatives[bi]? with
        | none => (t1, cur, .crash)
        | some a =>
          let t2 := { t1 with best_name := upd t1.best_name ps a.1 }
          let t3 :=
            if cfg.stages = 1 then { t2 with best_method := upd t2.best_method ps (some a.2) }
            else { t2 with best_pipeline := upd t2.best_pipeline ps (some a.2) }
          (t3, cur, .selected)
    else
      (t, (scanLive thr (bts.drop cur) cur).getD cur, .noSelection)
  else (t, cur, .noSelection)

/-- Final write-back of `BestOf.__call__`: store the local cursor and round
back into the per-problem-size maps. -/
def writeBack (t : TuneState) (ps cur round : Nat) : TuneState :=
  { t with current_alternative := upd t.current_alternative ps cur,
           current_round := upd t.current_round ps round }

/-- One `_BestOfExecution` node: parent link, children, problem-size counts,
the current problem size, and the `_blocked_by` table keyed by problem size
then by blocking child node. The outer `defaultdict` is modelled as a total
function (its key set is never iterated by the source); the inner dict keeps
its keys explicit because `is_blocked` iterates its values. The display-name
bookkeeping of the source is reporting-only and omitted. -/
structure ExecNode where
  parent : Option Nat
  children : List Nat
  problem_sizes : Nat → Nat
  current_problem_size : Option Nat
  blocked_by : Option Nat → List (Nat × Bool)

/-- The process-wide root execution node (`BestOf._root`). -/
def rootNode : ExecNode where
  parent := none
  children := []
  problem_sizes := fun _ => 0
  current_problem_size := none
  blocked_by := fun _ => []

/-- `_BestOfExecution.is_blocked`: whether any entry under the node's
current problem size is `True`. -/
def ExecNode.isBlocked (nd : ExecNode) : Bool :=
  (nd.blocked_by nd.current_problem_size).any (fun p => p.2)

/-- Global engine state: one registry's tuning state plus the process-wide
execution tree (`nodes`, node 0 being the root), the registry's
`_executions` map from call-context id to node, the class-level
`_current_parents` stack, and the `_use_first_alternative` switch. -/
structure EngineState where
  tune : TuneState
  nodes : List ExecNode
  executions : Nat → Option Nat
  current_parents : List Nat
  use_first_alternative : Bool

/-- Engine state at process start: a fresh registry and a tree holding only
the root node. -/
def initEngine (cfg : BestOfConfig) : EngineState where
  tune := initTune cfg
  nodes := [rootNode]
  executions := fun _ => none
  current_parents := []
  use_first_alternative := false

/-- Node lookup by id (all ids used by the engine are in range; the root is
returned for an out-of-range id to keep the function total). -/
def getNode (st : EngineState) (i : Nat) : ExecNode :=
  st.nodes[i]?.getD rootNode

/-- Node replacement by id. -/
def setNode (st : EngineState) (i : Nat) (nd : ExecNode) : EngineState :=
  { st with nodes := st.nodes.set i nd }

/-- `BestOf._register`: look the call-context id up in `_executions`,
creating a fresh node under the last element of `_current_parents` (or the
root) when absent. Returns the node id and the possibly-extended state. -/
def register (st : EngineState) (execId : Nat) : Nat × EngineState :=
  match st.executions execId with
  | some nid => (nid, st)
  | none =>
    let parentId := st.current_parents.getLast?.getD 0
    let nid := st.nodes.length
    let newNode : ExecNode :=
      { parent := some parentId, children := [], problem_sizes := fun _ => 0,
        current_problem_size := none, blocked_by := fun _ => [] }
    let st1 := { st with nodes := st.nodes ++ [newNode] }
    let pnode := getNode st1 parentId
    let st2 := setNode st1 parentId { pnode with children := pnode.children ++ [nid] }
    (nid, { st2 with executions := fun e => if e = execId then some nid else st.executions e })

/-- `_BestOfExecution.set_problem_size`: record the problem size against the
node and make it current. -/
def setProblemSize (st : EngineState) (nid ps : Nat) : EngineState :=
  let nd := getNode st nid
  setNode st nid
    { nd with current_problem_size := some ps,
              problem_sizes := fun p => if p = ps then nd.problem_sizes p + 1 else nd.problem_sizes p }

/-- `_BestOfExecution.block_parent`: unless the parent is the root, mark
this node as blocking the parent under the parent's current problem size. -/
def blockParent (st : EngineState) (nid : Nat) : EngineState :=
  match (getNode st nid).parent with
  | none => st
  | some p =>
    let pnode := getNode st p
    if pnode.parent = none then st
    else
      let inner := pnode.blocked_by pnode.current_problem_size
      let bb := upd pnode.blocked_by pnode.current_problem_size (alSet inner nid true)
      setNode st p { pnode with blocked_by := bb }

/-- `_BestOfExecution.unblock_parent`: unless the parent is the root, drop
this node's entry under the parent's current problem size (a missing key is
ignored, as under `suppress(KeyError)`). -/
def unblockParent (st : EngineState) (nid : Nat) : EngineState :=
  match (getNode st nid).parent with
  | none => st
  | some p =>
    let pnode := getNode st p
    if pnode.parent = none then st
    else
      let inner := pnode.blocked_by pnode.current_problem_size
      let bb := upd pnode.blocked_by pnode.current_problem_size (alPop inner nid)
      setNode st p { pnode with blocked_by := bb }

/-- Result of one `BestOf.__call__`: the callable that produced the returned
value, or the CPython exception that escaped (`stageAssertError` for the
stage-bound assertion; `dispatchError` for an `IndexError`/`TypeError`
while resolving or applying a callable; `decideCrash` for an error inside
the selection block). -/
inductive CallOutcome where
  | invoked (f : Nat)
  | stageAssertError
  | dispatchError
  | decideCrash
deriving DecidableEq

/-- Callable of alternative `idx` for the given stage: the alternative's
single callable in single-stage mode, or `alternatives[idx][1][stage]` with
Python indexing in pipeline mode. `none` models the CPython error raised on
a malformed lookup (wrong shape or out-of-range index). -/
def altCallable (cfg : BestOfConfig) (idx : Nat) (stage : Int) : Option Nat :=
  match cfg.alternatives[idx]? with
  | none => none
  | some a =>
    if cfg.stages = 1 then
      match a.2 with
      | .single f => some f
      | .pipe _ => none
    else
      match a.2 with
      | .pipe fs => pyGet fs stage
      | .single _ => none

/-- State just before the alternative under evaluation runs: the node has
blocked its parent and been pushed onto `_current_parents`. -/
def benchPre (st2 : EngineState) (nid : Nat) : EngineState :=
  let st3 := blockParent st2 nid
  { st3 with current_parents := st3.current_parents ++ [nid] }

/-- State just after the alternative under evaluation returned: the nested
calls' effects `eff` have been applied and the node popped from
`_current_parents`. -/
def afterEff (eff : EngineState → EngineState) (st2 : EngineState) (nid : Nat) : EngineState :=
  let st5 := eff (benchPre st2 nid)
  { st5 with current_parents := st5.current_parents.dropLast }

/-- Benchmarked path of `BestOf.__call__` (no cached selection, override
off): block the parent, read the cursor, push this node, run the cursored
alternative (its nested tuned calls acting as `eff`), pop, and — unless this
node is still blocked by a child — record the sample, evolve, run the
pruning/selection block, unblock the parent on selection, and write the
cursor and round back. -/
def benchCall (cfg : BestOfConfig) (st2 : EngineState) (nid ps : Nat) (stage : Int)
    (elapsed : ℚ) (eff : EngineState → EngineState) : CallOutcome × EngineState :=
  let cur := (blockParent st2 nid).tune.current_alternative ps
  match altCallable cfg cur stage with
  | none => (.dispatchError, benchPre st2 nid)
  | some f =>
    let st6 := afterEff eff st2 nid
    if (getNode st6 nid).isBlocked then (.invoked f, st6)
    else
      let r1 := recordPhase cfg st6.tune ps stage cur elapsed
      let r2 := decidePhase cfg r1.1 ps r1.2.1 r1.2.2
      match r2.2.2 with
      | .crash => (.decideCrash, { st6 with tune := r2.1 })
      | .selected =>
        (.invoked f, unblockParent { st6 with tune := writeBack r2.1 ps r2.2.1 r1.2.2 } nid)
      | .noSelection =>
        (.invoked f, { st6 with tune := writeBack r2.1 ps r2.2.1 r1.2.2 })

/-- One invocation of `BestOf.__call__`. Inputs: the call-context id
(deriving the execution node), the problem size computed by the classifier
on the call's arguments, the leading stage argument (used only when
`stages > 1`), the elapsed wall time of the alternative's execution, and
`eff`, the engine-state effects of whatever nested tuned calls the
alternative performs. Mirrors the source order: register the node, check the
stage bound, take the override shortcut, record the problem size, take the
cached fast path, else run the benchmarked path. -/
def bestOfCall (cfg : BestOfConfig) (st : EngineState) (execId ps : Nat)
    (stageArg : Int) (elapsed : ℚ) (eff : EngineState → EngineState) :
    CallOutcome × EngineState :=
  let r := register st execId
  let nid := r.1
  let st1 := r.2
  let stage : Int := if 1 < cfg.stages then stageArg else 0
  if (cfg.stages : Int) ≤ stage then (.stageAssertError, st1)
  else if st1.use_first_alternative then
    match altCallable cfg 0 stage with
    | some f => (.invoked f, st1)
    | none => (.dispatchError, st1)
  else
    let st2 := setProblemSize st1 nid ps
    if cfg.stages = 1 then
      match st2.tune.best_method ps with
      | some (.single f) => (.invoked f, st2)
      | some (.pipe _) => (.dispatchError, st2)
      | none => benchCall cfg st2 nid ps stage elapsed eff
    else
      match st2.tune.best_pipeline ps with
      | some (.pipe fs) =>
        match pyGet fs stage with
        | some g => (.invoked g, st2)
        | none => (.dispatchError, st2)
      | some (.single _) => (.dispatchError, st2)
      | none => benchCall cfg st2 nid ps stage elapsed eff

/-- One call of a driver script: context id, problem size, stage argument
and elapsed time. -/
structure CallSpec where
  execId : Nat
  ps : Nat
  stageArg : Int
  elapsed : ℚ

/-- Sequential execution of a list of calls whose alternatives perform no
nested tuned calls (`eff = id`). -/
def runCalls (cfg : BestOfConfig) (st : EngineState) (cs : List CallSpec) : EngineState :=
  cs.foldl (fun s c => (bestOfCall cfg s c.execId c.ps c.stageArg c.elapsed id).2) st

/-- State after the first `t` calls of a single-context, single-size,
single-stage benchmarking run with elapsed times `ts`. -/
def afterCalls (cfg : BestOfConfig) (execId ps : Nat) (ts : List ℚ) (t : Nat) : EngineState :=
  runCalls cfg (initEngine cfg) ((ts.take t).map (fun e => ⟨execId, ps, 0, e⟩))

/-! ### Frame and projection lemmas -/

theorem upd_same {κ α : Type} [DecidableEq κ] (m : κ → α) (k : κ) (v : α) :
    upd m k v k = v := by
  simp [upd]

theorem upd_other {κ α : Type} [DecidableEq κ] (m : κ → α) (k k' : κ) (v : α)
    (h : k' ≠ k) : upd m k v k' = m k' := by
  simp [upd, h]

theorem register_found (st : EngineState) (e nid : Nat)
    (h : st.executions e = some nid) : register st e = (nid, st) := by
  simp [register, h]

theorem register_tune (st : EngineState) (e : Nat) : (register st e).2.tune = st.tune := by
  unfold register
  cases st.executions e <;> simp [setNode]

theorem register_use_first (st : EngineState) (e : Nat) :
    (register st e).2.use_first_alternative = st.use_first_alternative := by
  unfold register
  cases st.executions e <;> simp [setNode]

theorem register_parents (st : EngineState) (e : Nat) :
    (register st e).2.current_parents = st.current_parents := by
  unfold register
  cases st.executions e <;> simp [setNode]

theorem setProblemSize_tune (st : EngineState) (nid ps : Nat) :
    (setProblemSize st nid ps).tune = st.tune := by
  simp [setProblemSize, setNode]

theorem setProblemSize_parents (st : EngineState) (nid ps : Nat) :
    (setProblemSize st nid ps).current_parents = st.current_parents := by
  simp [setProblemSize, setNode]

theorem setProblemSize_use_first (st : EngineState) (nid ps : Nat) :
    (setProblemSize st nid ps).use_first_alternative = st.use_first_alternative := by
  simp [setProblemSize, setNode]

theorem setProblemSize_executions (st : EngineState) (nid ps : Nat) :
    (setProblemSize st nid ps).executions = st.executions := by
  simp [setProblemSize, setNode]

theorem blockParent_tune (st : EngineState) (nid : Nat) :
    (blockParent st nid).tune = st.tune := by
  unfold blockParent
  cases (getNode st nid).parent <;> simp [setNode]
  split <;> simp

theorem blockParent_parents (st : EngineState) (nid : Nat) :
    (blockParent st nid).current_parents = st.current_parents := by
  unfold blockParent
  cases (getNode st nid).parent <;> simp [setNode]
  split <;> simp

theorem blockParent_executions (st : EngineState) (nid : Nat) :
    (blockParent st nid).executions = st.executions := by
  unfold blockParent
  cases (getNode st nid).parent <;> simp [setNode]
  split <;> simp

theorem blockParent_use_first (st : EngineState) (nid : Nat) :
    (blockParent st nid).use_first_alternative = st.use_first_alternative := by
  unfold blockParent
  cases (getNode st nid).parent <;> simp [setNode]
  split <;> simp

theorem unblockParent_tune (st : EngineState) (nid : Nat) :
    (unblockParent st nid).tune = st.tune := by
  unfold unblockParent
  cases (getNode st nid).parent <;> simp [setNode]
  split <;> simp

theorem benchPre_tune (st : EngineState) (nid : Nat) :
    (benchPre st nid).tune = st.tune := by
  simp [benchPre, blockParent_tune]

theorem afterEff_tune (eff : EngineState → EngineState) (st : EngineState) (nid : Nat)
    (heff : ∀ x, (eff x).tune = x.tune) :
    (afterEff eff st nid).tune = st.tune := by
  simp [afterEff, heff, benchPre_tune]

theorem writeBack_best_idx (t : TuneState) (ps c r : Nat) :
    (writeBack t ps c r).best_idx = t.best_idx := rfl

theorem writeBack_times (t : TuneState) (ps c r : Nat) :
    (writeBack t ps c r).times = t.times := rfl

theorem recordPhase_best_idx (cfg : BestOfConfig) (t : TuneState) (ps : Nat) (s : Int)
    (cur : Nat) (e : ℚ) : (recordPhase cfg t ps s cur e).1.best_idx = t.best_idx := by
  unfold recordPhase
  dsimp only
  repeat' split
  all_goals rfl

theorem recordPhase_best_name (cfg : BestOfConfig) (t : TuneState) (ps : Nat) (s : Int)
    (cur : Nat) (e : ℚ) : (recordPhase cfg t ps s cur e).1.best_name = t.best_name := by
  unfold recordPhase
  dsimp only
  repeat' split
  all_goals rfl

theorem recordPhase_best_method (cfg : BestOfConfig) (t : TuneState) (ps : Nat) (s : Int)
    (cur : Nat) (e : ℚ) : (recordPhase cfg t ps s cur e).1.best_method = t.best_method := by
  unfold recordPhase
  dsimp only
  repeat' split
  all_goals rfl

theorem recordPhase_best_pipeline (cfg : BestOfConfig) (t : TuneState) (ps : Nat) (s : Int)
    (cur : Nat) (e : ℚ) : (recordPhase cfg t ps s cur e).1.best_pipeline = t.best_pipeline := by
  unfold recordPhase
  dsimp only
  repeat' split
  all_goals rfl

theorem recordPhase_round_map (cfg : BestOfConfig) (t : TuneState) (ps : Nat) (s : Int)
    (cur : Nat) (e : ℚ) : (recordPhase cfg t ps s cur e).1.current_round = t.current_round := by
  unfold recordPhase
  dsimp only
  repeat' split
  all_goals rfl

theorem recordPhase_alt_map (cfg : BestOfConfig) (t : TuneState) (ps : Nat) (s : Int)
    (cur : Nat) (e : ℚ) :
    (recordPhase cfg t ps s cur e).1.current_alternative = t.current_alternative := by
  unfold recordPhase
  dsimp only
  repeat' split
  all_goals rfl

theorem recordPhase_times_other (cfg : BestOfConfig) (t : TuneState) (ps ps' : Nat) (s : Int)
    (cur : Nat) (e : ℚ) (h : ps' ≠ ps) :
    (recordPhase cfg t ps s cur e).1.times ps' = t.times ps' := by
  unfold recordPhase
  dsimp only
  repeat' split
  all_goals simp [upd_other _ _ _ _ h]

theorem recordPhase_stages_other (cfg : BestOfConfig) (t : TuneState) (ps ps' : Nat) (s : Int)
    (cur : Nat) (e : ℚ) (h : ps' ≠ ps) :
    (recordPhase cfg t ps s cur e).1.stages_times ps' = t.stages_times ps' := by
  unfold recordPhase
  dsimp only
  repeat' split
  all_goals simp [upd_other _ _ _ _ h]

theorem decidePhase_times (cfg : BestOfConfig) (t : TuneState) (ps c r : Nat) :
    (decidePhase cfg t ps c r).1.times = t.times := by
  unfold decidePhase
  dsimp only
  repeat' split
  all_goals rfl

theorem decidePhase_stages_times (cfg : BestOfConfig) (t : TuneState) (ps c r : Nat) :
    (decidePhase cfg t ps c r).1.stages_times = t.stages_times := by
  unfold decidePhase
  dsimp only
  repeat' split
  all_goals rfl

theorem decidePhase_round_map (cfg : BestOfConfig) (t : TuneState) (ps c r : Nat) :
    (decidePhase cfg t ps c r).1.current_round = t.current_round := by
  unfold decidePhase
  dsimp only
  repeat' split
  all_goals rfl

theorem decidePhase_alt_map (cfg : BestOfConfig) (t : TuneState) (ps c r : Nat) :
    (decidePhase cfg t ps c r).1.current_alternative = t.current_alternative := by
  unfold decidePhase
  dsimp only
  repeat' split
  all_goals rfl

theorem decidePhase_best_idx_other (cfg : BestOfConfig) (t : TuneState) (ps ps' c r : Nat)
    (h : ps' ≠ ps) : (decidePhase cfg t ps c r).1.best_idx ps' = t.best_idx ps' := by
  unfold decidePhase
  dsimp only
  repeat' split
  all_goals simp [upd_other _ _ _ _ h]

theorem decidePhase_best_name_other (cfg : BestOfConfig) (t : TuneState) (ps ps' c r : Nat)
    (h : ps' ≠ ps) : (decidePhase cfg t ps c r).1.best_name ps' = t.best_name ps' := by
  unfold decidePhase
  dsimp only
  repeat' split
  all_goals simp [upd_other _ _ _ _ h]

theorem decidePhase_best_method_other (cfg : BestOfConfig) (t : TuneState) (ps ps' c r : Nat)
    (h : ps' ≠ ps) : (decidePhase cfg t ps c r).1.best_method ps' = t.best_method ps' := by
  unfold decidePhase
  dsimp only
  repeat' split
  all_goals simp [upd_other _ _ _ _ h]

theorem decidePhase_best_pipeline_other (cfg : BestOfConfig) (t : TuneState) (ps ps' c r : Nat)
    (h : ps' ≠ ps) : (decidePhase cfg t ps c r).1.best_pipeline ps' = t.best_pipeline ps' := by
  unfold decidePhase
  dsimp only
  repeat' split
  all_goals simp [upd_other _ _ _ _ h]

/-! ### C5: cached fast path -/

/-- C5: once a selection has been cached for a problem size, a call with that
problem size (override off, stage in range) invokes exactly the cached
callable — the cached method in single-stage mode, the cached pipeline's
stage callable in pipeline mode — returns its result, and leaves the whole
tuning state untouched: no sample is recorded and the cursor, round counter
and recorded series of every key are unchanged, so the cached entry itself
also persists. -/
theorem c5_cached_fast_path (cfg : BestOfConfig) (st : EngineState) (execId ps : Nat)
    (stageArg : Int) (e : ℚ) (eff : EngineState → EngineState)
    (huf : st.use_first_alternative = false)
    (hstage : ¬ (cfg.stages : Int) ≤ (if 1 < cfg.stages then stageArg else 0)) :
    (∀ f, cfg.stages = 1 → st.tune.best_method ps = some (.single f) →
      (bestOfCall cfg st execId ps stageArg e eff).1 = .invoked f ∧
      (bestOfCall cfg st execId ps stageArg e eff).2.tune = st.tune) ∧
    (∀ fs g, 1 < cfg.stages → st.tune.best_pipeline ps = some (.pipe fs) →
      pyGet fs stageArg = some g →
      (bestOfCall cfg st execId ps stageArg e eff).1 = .invoked g ∧
      (bestOfCall cfg st execId ps stageArg e eff).2.tune = st.tune) := by
  have huf1 : (register st execId).2.use_first_alternative = false := by
    rw [register_use_first]; exact huf
  constructor
  · intro f hs hc
    have hc1 : (setProblemSize (register st execId).2 (register st execId).1 ps).tune.best_method ps
        = some (.single f) := by
      rw [setProblemSize_tune, register_tune]; exact hc
    unfold bestOfCall
    dsimp only
    rw [if_neg hstage, huf1]
    simp only [Bool.false_eq_true, if_false, if_pos hs, hc1]
    exact ⟨trivial, by rw [setProblemSize_tune, register_tune]⟩
  · intro fs g hp hc hg
    have hc1 : (setProblemSize (register st execId).2 (register st execId).1 ps).tune.best_pipeline ps
        = some (.pipe fs) := by
      rw [setProblemSize_tune, register_tune]; exact hc
    have hs1 : ¬ cfg.stages = 1 := by omega
    have hg1 : pyGet fs (if 1 < cfg.stages then stageArg else 0) = some g := by
      rw [if_pos hp]; exact hg
    unfold bestOfCall
    dsimp only
    rw [if_neg hstage, huf1]
    simp only [Bool.false_eq_true, if_false, if_neg hs1, hc1, hg1]
    exact ⟨trivial, by rw [setProblemSize_tune, register_tune]⟩

/-- Registry used by the C5 witness: one single-stage alternative with
callable id 10, with a selection already cached for problem size 3. -/
def c5cfg : BestOfConfig :=
  { name := "w5", alternatives := [("a", .single 10)],
    rounds := 10, pruning_speedup := 2, prune_after_round := 4, stages := 1 }

/-- Engine state used by the C5 witness. -/
def c5st : EngineState :=
  { initEngine c5cfg with
    tune := { initTune c5cfg with
              best_method := fun p => if p = 3 then some (.single 10) else none } }

/-- Witness for C5 at a concrete cached call. -/
theorem c5_witness :
    (bestOfCall c5cfg c5st 0 3 0 1 id).1 = .invoked 10 ∧
    (bestOfCall c5cfg c5st 0 3 0 1 id).2.tune = c5st.tune := by
  exact (c5_cached_fast_path c5cfg c5st 0 3 0 1 id rfl (by decide)).1 10 rfl rfl

/-! ### C8: stage validation -/

/-- Counterexample for C8 as stated: in a two-stage registry, the call with
leading stage argument `-1` violates `0 ≤ stage < stages` yet does not fail
with an InvalidStage error — the assertion only checks the upper bound, and
Python's negative indexing dispatches the last stage's callable (id 11). -/
theorem c8_counterexample :
    (bestOfCall ⟨"q", [("a", .pipe [10, 11])], 10, 2, 4, 2⟩
        (initEngine ⟨"q", [("a", .pipe [10, 11])], 10, 2, 4, 2⟩) 0 0 (-1) 1 id).1
      = .invoked 11 ∧
    (bestOfCall ⟨"q", [("a", .pipe [10, 11])], 10, 2, 4, 2⟩
        (initEngine ⟨"q", [("a", .pipe [10, 11])], 10, 2, 4, 2⟩) 0 0 (-1) 1 id).1
      ≠ .stageAssertError := by
  decide

/-- C8 (amended): in pipeline mode, a call whose leading stage argument is
at least `stages` fails with the stage assertion error surfaced to the
caller; the failing call leaves the tuning state untouched, but the
execution node has already been registered, so the execution tree may gain a
node. Stage arguments below zero are not rejected (see the
counterexample). -/
theorem c8_stage_validation (cfg : BestOfConfig) (st : EngineState) (execId ps : Nat)
    (stageArg : Int) (e : ℚ) (eff : EngineState → EngineState)
    (hp : 1 < cfg.stages) (hs : (cfg.stages : Int) ≤ stageArg) :
    bestOfCall cfg st execId ps stageArg e eff = (.stageAssertError, (register st execId).2) ∧
    (register st execId).2.tune = st.tune := by
  constructor
  · unfold bestOfCall
    dsimp only
    rw [if_pos hp, if_pos hs]
  · exact register_tune st execId

/-- Witness for C8 (amended) at a concrete out-of-range stage. -/
theorem c8_witness :
    bestOfCall ⟨"q", [("a", .pipe [10, 11])], 10, 2, 4, 2⟩
        (initEngine ⟨"q", [("a", .pipe [10, 11])], 10, 2, 4, 2⟩) 0 0 5 1 id
      = (.stageAssertError,
         (register (initEngine ⟨"q", [("a", .pipe [10, 11])], 10, 2, 4, 2⟩) 0).2) ∧
    (register (initEngine ⟨"q", [("a", .pipe [10, 11])], 10, 2, 4, 2⟩) 0).2.tune
      = (initEngine ⟨"q", [("a", .pipe [10, 11])], 10, 2, 4, 2⟩).tune := by
  exact c8_stage_validation _ _ 0 0 5 1 id (by decide) (by decide)

/-! ### C9: global override -/

/-- Registry used by the C9 counterexample and witness. -/
def c9cfg : BestOfConfig :=
  { name := "s", alternatives := [("a", .single 10)],
    rounds := 10, pruning_speedup := 2, prune_after_round := 4, stages := 1 }

/-- Engine state with the global override switch set. -/
def c9st : EngineState := { initEngine c9cfg with use_first_alternative := true }

/-- Counterexample for C9 as stated: with the override switch set, the first
call from a new context still mutates the execution tree — a node is
registered before the override check, growing `nodes` from 1 to 2. -/
theorem c9_counterexample :
    (bestOfCall c9cfg c9st 0 0 0 1 id).1 = .invoked 10 ∧
    (bestOfCall c9cfg c9st 0 0 0 1 id).2.nodes.length = 2 ∧
    c9st.nodes.length = 1 := by
  decide

/-- C9 (amended): once the override switch is set, every call passing the
stage-bound assertion dispatches directly to the first-listed alternative
(its current-stage callable in pipeline mode) and returns its result; the
classifier is never consulted (the call's outcome and state are independent
of the problem size) and the tuning state is not mutated, but the execution
node is still registered, so the tree gains a node on the first call from a
new context. -/
theorem c9_override_dispatch (cfg : BestOfConfig) (st : EngineState) (execId ps : Nat)
    (stageArg : Int) (e : ℚ) (eff : EngineState → EngineState) (f : Nat)
    (huf : st.use_first_alternative = true)
    (hstage : ¬ (cfg.stages : Int) ≤ (if 1 < cfg.stages then stageArg else 0))
    (hf : altCallable cfg 0 (if 1 < cfg.stages then stageArg else 0) = some f) :
    bestOfCall cfg st execId ps stageArg e eff = (.invoked f, (register st execId).2) ∧
    (register st execId).2.tune = st.tune ∧
    ∀ ps', bestOfCall cfg st execId ps' stageArg e eff =
           bestOfCall cfg st execId ps stageArg e eff := by
  have huf1 : (register st execId).2.use_first_alternative = true := by
    rw [register_use_first]; exact huf
  have key : ∀ q, bestOfCall cfg st execId q stageArg e eff
      = (.invoked f, (register st execId).2) := by
    intro q
    unfold bestOfCall
    dsimp only
    rw [if_neg hstage, huf1]
    simp only [if_true, hf]
  exact ⟨key ps, register_tune st execId, fun ps' => (key ps').trans (key ps).symm⟩

/-- Witness for C9 (amended) at a concrete overridden call, including the
problem-size independence instance. -/
theorem c9_witness :
    bestOfCall c9cfg c9st 1 5 0 1 id = (.invoked 10, (register c9st 1).2) ∧
    bestOfCall c9cfg c9st 1 7 0 1 id = bestOfCall c9cfg c9st 1 5 0 1 id := by
  have h := c9_override_dispatch c9cfg c9st 1 5 0 1 id 10 rfl (by decide) (by decide)
  exact ⟨h.1, h.2.2 7⟩

/-! ### Association-list and node-lookup lemmas -/

theorem alGet_alSet_same {κ α : Type} [DecidableEq κ] (l : List (κ × α)) (k : κ) (v : α) :
    alGet (alSet l k v) k = some v := by
  induction l with
  | nil => simp [alSet, alGet]
  | cons h t ih =>
    by_cases hk : h.1 = k
    · simp [alSet, alGet, List.find?_cons, hk]
    · by_cases hc : (t.find? (fun p => decide (p.1 = k))).isSome
      · simpa [alSet, alGet, List.find?_cons, hk, hc] using ih
      · simpa [alSet, alGet, List.find?_cons, hk, hc] using ih

theorem alGet_alPop_same {κ α : Type} [DecidableEq κ] (l : List (κ × α)) (k : κ) :
    alGet (alPop l k) k = none := by
  induction l with
  | nil => simp [alPop, alGet]
  | cons h t ih =>
    by_cases hk : h.1 = k
    · simp [alPop, alGet, hk]
    · simp [alPop, alGet, List.find?_cons, hk]

theorem getNode_setNode_same (st : EngineState) (i : Nat) (nd : ExecNode)
    (h : i < st.nodes.length) : getNode (setNode st i nd) i = nd := by
  simp [getNode, setNode, List.getElem?_set, h]

theorem getNode_setNode_other (st : EngineState) (i : Nat) (nd : ExecNode) (j : Nat)
    (h : j ≠ i) : getNode (setNode st i nd) j = getNode st j := by
  simp [getNode, setNode, List.getElem?_set, Ne.symm h]

theorem lt_length_of_parent_ne_none (st : EngineState) (p : Nat)
    (h : (getNode st p).parent ≠ none) : p < st.nodes.length := by
  by_contra hge
  have hnone : st.nodes[p]? = none := by
    simpa using List.getElem?_eq_none (le_of_not_lt hge)
  simp [getNode, hnone, rootNode] at h

theorem getNode_setProblemSize_other (st : EngineState) (n q m : Nat) (h : m ≠ n) :
    getNode (setProblemSize st n q) m = getNode st m := by
  unfold setProblemSize
  exact getNode_setNode_other _ _ _ _ h

theorem getNode_setProblemSize_parent (st : EngineState) (n q m : Nat) :
    (getNode (setProblemSize st n q) m).parent = (getNode st m).parent := by
  by_cases h : m = n
  · subst h
    unfold setProblemSize
    by_cases hlt : m < st.nodes.length
    · rw [getNode_setNode_same _ _ _ hlt]
    · unfold setNode getNode
      simp [List.set_eq_of_length_le (le_of_not_lt hlt)]
  · rw [getNode_setProblemSize_other _ _ _ _ h]

theorem getNode_setProblemSize_blocked (st : EngineState) (n q m : Nat) :
    (getNode (setProblemSize st n q) m).blocked_by = (getNode st m).blocked_by := by
  by_cases h : m = n
  · subst h
    unfold setProblemSize
    by_cases hlt : m < st.nodes.length
    · rw [getNode_setNode_same _ _ _ hlt]
    · unfold setNode getNode
      simp [List.set_eq_of_length_le (le_of_not_lt hlt)]
  · rw [getNode_setProblemSize_other _ _ _ _ h]

theorem getNode_benchPre (st : EngineState) (n m : Nat) :
    getNode (benchPre st n) m = getNode (blockParent st n) m := rfl

theorem blockParent_spec (st : EngineState) (nid p : Nat)
    (hpar : (getNode st nid).parent = some p)
    (hroot : ¬ (getNode st p).parent = none) :
    blockParent st nid =
      setNode st p
        { getNode st p with
          blocked_by :=
            upd (getNode st p).blocked_by (getNode st p).current_problem_size
              (alSet ((getNode st p).blocked_by (getNode st p).current_problem_size) nid true) } := by
  unfold blockParent
  rw [hpar]
  dsimp only
  rw [if_neg hroot]

theorem unblockParent_spec (st : EngineState) (nid p : Nat)
    (hpar : (getNode st nid).parent = some p)
    (hroot : ¬ (getNode st p).parent = none) :
    unblockParent st nid =
      setNode st p
        { getNode st p with
          blocked_by :=
            upd (getNode st p).blocked_by (getNode st p).current_problem_size
              (alPop ((getNode st p).blocked_by (getNode st p).current_problem_size) nid) } := by
  unfold unblockParent
  rw [hpar]
  dsimp only
  rw [if_neg hroot]

/-! ### C2: contaminated samples are discarded -/

/-- C2: when, after the chosen alternative returns, the execution node is
still blocked by at least one of its own children, the call returns the
alternative's result (the cursored callable's output) and performs none of
the recording steps: the final state is exactly the post-invocation state,
so when the nested calls leave the registry's tuning state alone, the
cursor, round counter and every sample series are unchanged. -/
theorem c2_blocked_no_sample (cfg : BestOfConfig) (st st1 : EngineState)
    (nid execId ps : Nat) (stageArg : Int) (e : ℚ) (eff : EngineState → EngineState) (f : Nat)
    (hreg : register st execId = (nid, st1))
    (hstage : ¬ (cfg.stages : Int) ≤ (if 1 < cfg.stages then stageArg else 0))
    (huf : st1.use_first_alternative = false)
    (hm : cfg.stages = 1 → st1.tune.best_method ps = none)
    (hpip : 1 < cfg.stages → st1.tune.best_pipeline ps = none)
    (hf : altCallable cfg (st1.tune.current_alternative ps)
          (if 1 < cfg.stages then stageArg else 0) = some f)
    (hbl : (getNode (afterEff eff (setProblemSize st1 nid ps) nid) nid).isBlocked = true) :
    bestOfCall cfg st execId ps stageArg e eff =
      (.invoked f, afterEff eff (setProblemSize st1 nid ps) nid) ∧
    ((∀ x, (eff x).tune = x.tune) →
      (bestOfCall cfg st execId ps stageArg e eff).2.tune = st1.tune) := by
  have hcur : (blockParent (setProblemSize st1 nid ps) nid).tune.current_alternative ps
      = st1.tune.current_alternative ps := by
    rw [blockParent_tune, setProblemSize_tune]
  have hmain : bestOfCall cfg st execId ps stageArg e eff =
      (.invoked f, afterEff eff (setProblemSize st1 nid ps) nid) := by
    unfold bestOfCall
    rw [hreg]
    dsimp only
    rw [if_neg hstage, huf]
    simp only [Bool.false_eq_true, if_false]
    by_cases hs : cfg.stages = 1
    · rw [if_pos hs]
      have hm1 : (setProblemSize st1 nid ps).tune.best_method ps = none := by
        rw [setProblemSize_tune]; exact hm hs
      rw [hm1]
      unfold benchCall
      dsimp only
      rw [hcur, hf]
      dsimp only
      rw [hbl, if_pos rfl]
    · rw [if_neg hs]
      have hp1 : (setProblemSize st1 nid ps).tune.best_pipeline ps = none := by
        rw [setProblemSize_tune]; exact hpip (by omega)
      rw [hp1]
      unfold benchCall
      dsimp only
      rw [hcur, hf]
      dsimp only
      rw [hbl, if_pos rfl]
  refine ⟨hmain, fun heff => ?_⟩
  rw [hmain]
  dsimp only
  rw [afterEff_tune _ _ _ heff, setProblemSize_tune]

/-- Registry used by the C2 witness: one single-stage alternative. -/
def c2cfg : BestOfConfig :=
  { name := "w2", alternatives := [("a", .single 10)],
    rounds := 10, pruning_speedup := 2, prune_after_round := 4, stages := 1 }

/-- Execution node used by the C2 witness: blocked by child node 2 for
problem size 5. -/
def c2node : ExecNode :=
  { parent := some 0, children := [2], problem_sizes := fun _ => 0,
    current_problem_size := none,
    blocked_by := fun k => if k = some 5 then [(2, true)] else [] }

/-- Engine state used by the C2 witness. -/
def c2st : EngineState :=
  { tune := initTune c2cfg, nodes := [rootNode, c2node],
    executions := fun e => if e = 0 then some 1 else none,
    current_parents := [], use_first_alternative := false }

/-- Witness for C2 at a concrete blocked call. -/
theorem c2_witness :
    bestOfCall c2cfg c2st 0 5 0 1 id =
      (.invoked 10, afterEff id (setProblemSize c2st 1 5) 1) ∧
    (bestOfCall c2cfg c2st 0 5 0 1 id).2.tune = c2st.tune := by
  have h := c2_blocked_no_sample c2cfg c2st c2st 1 0 5 0 1 id 10 rfl (by decide) rfl
    (fun _ => rfl) (fun hp => absurd hp (by decide)) rfl (by decide)
  exact ⟨h.1, h.2 (fun _ => rfl)⟩

theorem getNode_withTune (st : EngineState) (t : TuneState) (m : Nat) :
    getNode { st with tune := t } m = getNode st m := rfl

theorem unblock_after (st6 : EngineState) (W : TuneState) (nid p : Nat)
    (hpar6 : (getNode st6 nid).parent = some p)
    (hroot6 : ¬ (getNode st6 p).parent = none) :
    alGet ((getNode (unblockParent { st6 with tune := W } nid) p).blocked_by
      ((getNode st6 p).current_problem_size)) nid = none := by
  have h1 : (getNode { st6 with tune := W } nid).parent = some p := hpar6
  have h2 : ¬ (getNode { st6 with tune := W } p).parent = none := hroot6
  have hlt : p < ({ st6 with tune := W } : EngineState).nodes.length :=
    lt_length_of_parent_ne_none _ p h2
  rw [unblockParent_spec _ nid p h1 h2, getNode_setNode_same _ _ _ hlt]
  dsimp only
  have hcps : (getNode { st6 with tune := W } p).current_problem_size
      = (getNode st6 p).current_problem_size := rfl
  rw [hcps, upd_same, alGet_alPop_same]


/-! ### C7: parent blocking protocol -/

/-- Registry used by the C7 counterexample and witness. -/
def c7cfg : BestOfConfig :=
  { name := "w7", alternatives := [("a", .single 10), ("b", .single 11)],
    rounds := 10, pruning_speedup := 2, prune_after_round := 4, stages := 1 }

/-- Non-root parent node used by the C7 counterexample and witness, whose
current problem size is 7. -/
def c7p : ExecNode :=
  { parent := some 0, children := [2], problem_sizes := fun _ => 0,
    current_problem_size := some 7, blocked_by := fun _ => [] }

/-- Child node used by the C7 counterexample and witness. -/
def c7n : ExecNode :=
  { parent := some 1, children := [], problem_sizes := fun _ => 0,
    current_problem_size := none, blocked_by := fun _ => [] }

/-- Engine state used by the C7 counterexample and witness: the registered
node (id 2) has a non-root parent (id 1). -/
def c7st : EngineState :=
  { tune := initTune c7cfg, nodes := [rootNode, c7p, c7n],
    executions := fun e => if e = 9 then some 2 else none,
    current_parents := [], use_first_alternative := false }

/-- Counterexample for C7 as stated: a benchmarked call that does not reach
a selection returns with the parent STILL marked as blocked by this node for
the parent's current problem size — `unblock_parent` is not called after the
alternative's execution. -/
theorem c7_counterexample :
    (bestOfCall c7cfg c7st 9 5 0 1 id).1 = .invoked 10 ∧
    alGet ((getNode (bestOfCall c7cfg c7st 9 5 0 1 id).2 1).blocked_by (some 7)) 2
      = some true := by
  decide

/-- C7 (amended): on the benchmarked path, the node marks itself as blocking
its parent (under the parent's current problem size) before the alternative
under evaluation executes; the block is NOT cleared when the call returns —
it persists whenever the pruning/selection phase does not select, and it is
removed exactly when this call caches a selection (the `selected` branch
runs `unblock_parent`). Nested calls are assumed not to rewrite the parent
node or this node's parent link. -/
theorem c7_blocking_protocol (cfg : BestOfConfig) (st st1 : EngineState)
    (nid p execId ps : Nat) (stageArg : Int) (e : ℚ) (eff : EngineState → EngineState) (f : Nat)
    (hreg : register st execId = (nid, st1))
    (hstage : ¬ (cfg.stages : Int) ≤ (if 1 < cfg.stages then stageArg else 0))
    (huf : st1.use_first_alternative = false)
    (hm : cfg.stages = 1 → st1.tune.best_method ps = none)
    (hpip : 1 < cfg.stages → st1.tune.best_pipeline ps = none)
    (hf : altCallable cfg (st1.tune.current_alternative ps)
          (if 1 < cfg.stages then stageArg else 0) = some f)
    (hpar : (getNode st1 nid).parent = some p)
    (hnp : p ≠ nid)
    (hroot : ¬ (getNode st1 p).parent = none)
    (heffp : ∀ x, getNode (eff x) p = getNode x p)
    (heffn : ∀ x, (getNode (eff x) nid).parent = (getNode x nid).parent)
    (hnb : (getNode (afterEff eff (setProblemSize st1 nid ps) nid) nid).isBlocked = false) :
    alGet ((getNode (benchPre (setProblemSize st1 nid ps) nid) p).blocked_by
        ((getNode st1 p).current_problem_size)) nid = some true ∧
    ((decidePhase cfg
        (recordPhase cfg (afterEff eff (setProblemSize st1 nid ps) nid).tune ps
          (if 1 < cfg.stages then stageArg else 0) (st1.tune.current_alternative ps) e).1 ps
        (recordPhase cfg (afterEff eff (setProblemSize st1 nid ps) nid).tune ps
          (if 1 < cfg.stages then stageArg else 0) (st1.tune.current_alternative ps) e).2.1
        (recordPhase cfg (afterEff eff (setProblemSize st1 nid ps) nid).tune ps
          (if 1 < cfg.stages then stageArg else 0) (st1.tune.current_alternative ps) e).2.2).2.2
        = .noSelection →
      alGet ((getNode (bestOfCall cfg st execId ps stageArg e eff).2 p).blocked_by
        ((getNode st1 p).current_problem_size)) nid = some true) ∧
    ((decidePhase cfg
        (recordPhase cfg (afterEff eff (setProblemSize st1 nid ps) nid).tune ps
          (if 1 < cfg.stages then stageArg else 0) (st1.tune.current_alternative ps) e).1 ps
        (recordPhase cfg (afterEff eff (setProblemSize st1 nid ps) nid).tune ps
          (if 1 < cfg.stages then stageArg else 0) (st1.tune.current_alternative ps) e).2.1
        (recordPhase cfg (afterEff eff (setProblemSize st1 nid ps) nid).tune ps
          (if 1 < cfg.stages then stageArg else 0) (st1.tune.current_alternative ps) e).2.2).2.2
        = .selected →
      alGet ((getNode (bestOfCall cfg st execId ps stageArg e eff).2 p).blocked_by
        ((getNode st1 p).current_problem_size)) nid = none) := by
  have hb2 : (getNode (setProblemSize st1 nid ps) nid).parent = some p := by
    rw [getNode_setProblemSize_parent]; exact hpar
  have hb2p : ¬ (getNode (setProblemSize st1 nid ps) p).parent = none := by
    rw [getNode_setProblemSize_parent]; exact hroot
  have hpn : getNode (setProblemSize st1 nid ps) p = getNode st1 p :=
    getNode_setProblemSize_other st1 nid ps p hnp
  have hbp := blockParent_spec (setProblemSize st1 nid ps) nid p hb2 hb2p
  have hplt : p < (setProblemSize st1 nid ps).nodes.length :=
    lt_length_of_parent_ne_none _ p hb2p
  -- the parent node as rewritten by block_parent
  have hpb : getNode (blockParent (setProblemSize st1 nid ps) nid) p =
      { getNode st1 p with
        blocked_by :=
          upd (getNode st1 p).blocked_by (getNode st1 p).current_problem_size
            (alSet ((getNode st1 p).blocked_by (getNode st1 p).current_problem_size) nid true) } := by
    rw [hbp, getNode_setNode_same _ _ _ hplt, hpn]
  have hkey : alGet ((getNode (blockParent (setProblemSize st1 nid ps) nid) p).blocked_by
      ((getNode st1 p).current_problem_size)) nid = some true := by
    rw [hpb]
    dsimp only
    rw [upd_same, alGet_alSet_same]
  have hpre : getNode (benchPre (setProblemSize st1 nid ps) nid) p =
      getNode (blockParent (setProblemSize st1 nid ps) nid) p := rfl
  -- the post-invocation node at p is the blocked parent node
  have hp6 : getNode (afterEff eff (setProblemSize st1 nid ps) nid) p =
      getNode (blockParent (setProblemSize st1 nid ps) nid) p := by
    have h0 : getNode (afterEff eff (setProblemSize st1 nid ps) nid) p =
        getNode (eff (benchPre (setProblemSize st1 nid ps) nid)) p := rfl
    rw [h0, heffp]
    rfl
  -- the post-invocation parent link of nid
  have hn6 : (getNode (afterEff eff (setProblemSize st1 nid ps) nid) nid).parent = some p := by
    have h0 : (getNode (afterEff eff (setProblemSize st1 nid ps) nid) nid).parent =
        (getNode (eff (benchPre (setProblemSize st1 nid ps) nid)) nid).parent := rfl
    rw [h0, heffn]
    show (getNode (blockParent (setProblemSize st1 nid ps) nid) nid).parent = some p
    rw [hbp, getNode_setNode_other _ _ _ _ (Ne.symm hnp)]
    exact hb2
  have hcur : (blockParent (setProblemSize st1 nid ps) nid).tune.current_alternative ps
      = st1.tune.current_alternative ps := by
    rw [blockParent_tune, setProblemSize_tune]
  -- reduce the full call to the benchmarked branch
  have hcall : bestOfCall cfg st execId ps stageArg e eff =
      benchCall cfg (setProblemSize st1 nid ps) nid ps
        (if 1 < cfg.stages then stageArg else 0) e eff := by
    unfold bestOfCall
    rw [hreg]
    dsimp only
    rw [if_neg hstage, huf]
    simp only [Bool.false_eq_true, if_false]
    by_cases hs : cfg.stages = 1
    · rw [if_pos hs]
      have hm1 : (setProblemSize st1 nid ps).tune.best_method ps = none := by
        rw [setProblemSize_tune]; exact hm hs
      rw [hm1]
    · rw [if_neg hs]
      have hp1 : (setProblemSize st1 nid ps).tune.best_pipeline ps = none := by
        rw [setProblemSize_tune]; exact hpip (by omega)
      rw [hp1]
  have hroot6 : ¬ (getNode (afterEff eff (setProblemSize st1 nid ps) nid) p).parent = none := by
    rw [hp6, hpb]
    dsimp only
    rw [← hpn, getNode_setProblemSize_parent]
    exact hroot
  have hk6 : (getNode (afterEff eff (setProblemSize st1 nid ps) nid) p).current_problem_size
      = (getNode st1 p).current_problem_size := by
    rw [hp6, hpb]
  refine ⟨by rw [hpre]; exact hkey, ?_, ?_⟩
  · intro hflag
    rw [hcall]
    unfold benchCall
    dsimp only
    rw [hcur, hf]
    dsimp only
    rw [hnb]
    simp only [Bool.false_eq_true, if_false]
    rw [hflag]
    dsimp only
    rw [getNode_withTune, hp6]
    exact hkey
  · intro hflag
    rw [hcall]
    unfold benchCall
    dsimp only
    rw [hcur, hf]
    dsimp only
    rw [hnb]
    simp only [Bool.false_eq_true, if_false]
    rw [hflag]
    dsimp only
    rw [← hk6]
    exact unblock_after _ _ nid p hn6 hroot6

/-- Witness for C7 (amended) at a concrete benchmarked, non-selecting call:
the block is set before execution and persists after the call returns. -/
theorem c7_witness :
    alGet ((getNode (benchPre (setProblemSize c7st 2 5) 2) 1).blocked_by (some 7)) 2
      = some true ∧
    alGet ((getNode (bestOfCall c7cfg c7st 9 5 0 1 id).2 1).blocked_by (some 7)) 2
      = some true := by
  have h := c7_blocking_protocol c7cfg c7st c7st 2 1 9 5 0 1 id 10 rfl (by decide) rfl
    (fun _ => rfl) (fun hp => absurd hp (by decide)) rfl (by decide) (by decide)
    (by decide) (fun _ => rfl) (fun _ => rfl) (by decide)
  exact ⟨h.1, h.2.1 (by decide)⟩

/-! ### C6: pipeline stage buffers -/

/-- Registry used by the C6 counterexample and witness: two pipeline
alternatives with two stages each. -/
def c6cfg : BestOfConfig :=
  { name := "w6", alternatives := [("a", .pipe [10, 11]), ("b", .pipe [20, 21])],
    rounds := 10, pruning_speedup := 2, prune_after_round := 4, stages := 2 }

attribute [local semireducible] Rat.add Rat.mul Rat.sub Rat.inv in
/-- Counterexample for C6 as stated: after stage 0 and the terminal stage 1
complete a cycle for alternative 0, the pipeline sample (1 + 2 = 3) is
appended, yet alternative 0's stage buffer is NOT reset to all-empty — the
reset is applied to the advanced cursor's buffer (alternative 1), and the
just-recorded buffer keeps its entries. -/
theorem c6_counterexample :
    ((runCalls c6cfg (initEngine c6cfg) [⟨0, 0, 0, 1⟩, ⟨0, 0, 1, 2⟩]).tune.times 0)[0]?
      = some [3] ∧
    ((runCalls c6cfg (initEngine c6cfg) [⟨0, 0, 0, 1⟩, ⟨0, 0, 1, 2⟩]).tune.stages_times 0)[0]?
      ≠ some [none, none] ∧
    ((runCalls c6cfg (initEngine c6cfg) [⟨0, 0, 0, 1⟩, ⟨0, 0, 1, 2⟩]).tune.stages_times 0)[0]?
      = some [some 1, some 2] := by
  decide

theorem all_isSome_set_replicate_none (n j : Nat) (e : ℚ) (hn : 2 ≤ n) (hj : 1 ≤ j) :
    ((List.replicate n (none : Option ℚ)).set j (some e)).all (fun o => o.isSome) = false := by
  obtain ⟨m, rfl⟩ : ∃ m, n = m + 2 := ⟨n - 2, by omega⟩
  obtain ⟨i, rfl⟩ : ∃ i, j = i + 1 := ⟨j - 1, by omega⟩
  simp [List.replicate_succ]

/-- C6 (amended): in pipeline mode each per-stage elapsed time is stored in
the current alternative's stage buffer. On a non-terminal stage nothing else
happens: no sample is appended and the cursor and round are returned
unchanged. On the terminal stage with a completely filled buffer, the buffer
sum is appended as one pipeline sample and the cursor/round evolve — but the
buffer that is then reset to all-empty belongs to the newly advanced
cursor's alternative, not to the alternative just recorded. On the terminal
stage with an incomplete buffer, no sample is appended, the cursor and round
are unchanged, and the current alternative's buffer is cleared; in
particular, calling the terminal stage first on a clean buffer never
produces a partial record. -/
theorem c6_pipeline_record (cfg : BestOfConfig) (t : TuneState) (ps cur : Nat)
    (stage : Int) (e : ℚ) (hp : 1 < cfg.stages) :
    (stage ≠ (cfg.stages : Int) - 1 →
      recordPhase cfg t ps stage cur e =
        ({ t with stages_times := upd t.stages_times ps ((t.stages_times ps).set cur (pySet ((t.stages_times ps)[cur]?.getD []) stage (some e))) },
         cur, t.current_round ps)) ∧
    (stage = (cfg.stages : Int) - 1 →
      (pySet ((t.stages_times ps)[cur]?.getD []) stage (some e)).all (fun o => o.isSome) = true →
      (recordPhase cfg t ps stage cur e).1.times ps =
        (t.times ps).set cur ((t.times ps)[cur]?.getD [] ++
          [(pySet ((t.stages_times ps)[cur]?.getD []) stage (some e)).foldl
            (fun acc o => acc + o.getD 0) 0]) ∧
      (recordPhase cfg t ps stage cur e).2 = evolve cfg stage cur (t.current_round ps) ∧
      (recordPhase cfg t ps stage cur e).1.stages_times ps =
        ((t.stages_times ps).set cur
          (pySet ((t.stages_times ps)[cur]?.getD []) stage (some e))).set
          (evolve cfg stage cur (t.current_round ps)).1 (List.replicate cfg.stages none)) ∧
    (stage = (cfg.stages : Int) - 1 →
      (pySet ((t.stages_times ps)[cur]?.getD []) stage (some e)).all (fun o => o.isSome) = false →
      (recordPhase cfg t ps stage cur e).1.times = t.times ∧
      (recordPhase cfg t ps stage cur e).2 = (cur, t.current_round ps) ∧
      (recordPhase cfg t ps stage cur e).1.stages_times ps =
        (t.stages_times ps).set cur (List.replicate cfg.stages none)) ∧
    (stage = (cfg.stages : Int) - 1 →
      (t.stages_times ps)[cur]?.getD [] = List.replicate cfg.stages none →
      (recordPhase cfg t ps stage cur e).1.times = t.times) := by
  have hs1 : ¬ cfg.stages = 1 := by omega
  have hpart3 : stage = (cfg.stages : Int) - 1 →
      (pySet ((t.stages_times ps)[cur]?.getD []) stage (some e)).all (fun o => o.isSome) = false →
      (recordPhase cfg t ps stage cur e).1.times = t.times ∧
      (recordPhase cfg t ps stage cur e).2 = (cur, t.current_round ps) ∧
      (recordPhase cfg t ps stage cur e).1.stages_times ps =
        (t.stages_times ps).set cur (List.replicate cfg.stages none) := by
    intro hterm hall
    unfold recordPhase
    dsimp only
    rw [if_neg hs1, if_pos hterm, hall]
    simp only [Bool.false_eq_true, if_false]
    refine ⟨by trivial, by trivial, ?_⟩
    simp only [upd_same, List.set_set]
  refine ⟨?_, ?_, hpart3, ?_⟩
  · intro hne
    unfold recordPhase
    dsimp only
    rw [if_neg hs1, if_neg hne]
  · intro hterm hall
    unfold recordPhase
    dsimp only
    rw [if_neg hs1, if_pos hterm, hall, if_pos rfl]
    refine ⟨?_, by trivial, ?_⟩
    · simp only [upd_same]
    · simp only [upd_same]
  · intro hterm hclean
    have hstage0 : (0 : Int) ≤ stage := by
      rw [hterm]; omega
    have hjt : stage.toNat = cfg.stages - 1 := by
      rw [hterm]; omega
    have hall : (pySet ((t.stages_times ps)[cur]?.getD []) stage (some e)).all
        (fun o => o.isSome) = false := by
      rw [hclean]
      unfold pySet
      rw [if_pos hstage0, hjt]
      exact all_isSome_set_replicate_none cfg.stages (cfg.stages - 1) e (by omega) (by omega)
    exact (hpart3 hterm hall).1

/-- Tuning state used by the C6 witness: alternative 0's stage buffer holds
a stage-0 time and awaits the terminal stage, for problem size 0. -/
def c6t : TuneState :=
  { initTune c6cfg with
    stages_times := fun p =>
      if p = 0 then [[some 1, none], [none, none]] else [[none, none], [none, none]] }

attribute [local semireducible] Rat.add Rat.mul Rat.sub Rat.inv in
/-- Witness for C6 (amended) at a concrete terminal-stage call completing
the buffer: the sum is appended, the cursor advances, and the reset clears
the advanced alternative's buffer while the recorded one keeps its entries. -/
theorem c6_witness :
    (recordPhase c6cfg c6t 0 1 0 2).1.times 0 = [[3], []] ∧
    (recordPhase c6cfg c6t 0 1 0 2).2 = (1, 0) ∧
    (recordPhase c6cfg c6t 0 1 0 2).1.stages_times 0 = [[some 1, some 2], [none, none]] := by
  have h := (c6_pipeline_record c6cfg c6t 0 0 1 2 (by decide)).2.1 (by decide) (by decide)
  refine ⟨?_, ?_, ?_⟩
  · rw [h.1]
    decide
  · rw [h.2.1]
    decide
  · rw [h.2.2]
    decide

/-! ### C1: pruning and the cursor -/

theorem scanLive_first (thr : Option ℚ) (l : List (Option ℚ)) (k i : Nat)
    (hi : i < l.length)
    (hl : nanLe (l[i]?.getD none) thr = true)
    (hmin : ∀ j, j < i → nanLe (l[j]?.getD none) thr = false) :
    scanLive thr l k = some (k + i) := by
  induction l generalizing k i with
  | nil => simp at hi
  | cons x xs ih =>
    cases i with
    | zero =>
      simp only [List.getElem?_cons_zero, Option.getD_some] at hl
      simp [scanLive, hl]
    | succ n =>
      have hx : nanLe x thr = false := by
        have h0 := hmin 0 (Nat.succ_pos n)
        simpa using h0
      have hi' : n < xs.length := by simpa using hi
      have hl' : nanLe (xs[n]?.getD none) thr = true := by simpa using hl
      have hmin' : ∀ j, j < n → nanLe (xs[j]?.getD none) thr = false := by
        intro j hj
        have hj1 := hmin (j + 1) (by omega)
        simpa using hj1
      simp only [scanLive, hx, Bool.false_eq_true, if_false]
      rw [ih (k + 1) n hi' hl' hmin']
      congr 1
      omega

/-- Registry used by the C1 counterexample and witness: three single-stage
alternatives, `rounds = 3`, `pruning_speedup = 2`, `prune_after_round = 1`. -/
def c1cfg : BestOfConfig :=
  { name := "w1", alternatives := [("a", .single 10), ("b", .single 11), ("c", .single 12)],
    rounds := 3, pruning_speedup := 2, prune_after_round := 1, stages := 1 }

/-- Engine state after one full round with elapsed times 1, 10, 3/2: the
pruning evaluation has run, discarding alternative 1 (median 10 > 1 × 2)
without selecting a winner. -/
def c1run3 : EngineState :=
  runCalls c1cfg (initEngine c1cfg) [⟨0, 0, 0, 1⟩, ⟨0, 0, 0, 10⟩, ⟨0, 0, 0, 3/2⟩]

/-- Engine state after one further benchmarked call (alternative 0). -/
def c1run4 : EngineState := runCalls c1cfg c1run3 [⟨0, 0, 0, 1⟩]

attribute [local semireducible] Rat.add Rat.mul Rat.sub Rat.inv in
/-- Counterexample for C1 as stated: after round one the pruning evaluation
discarded alternative 1 (its median 10 is above the pruning threshold 2)
without selecting a winner (`best_idx` still -1, round 1 < 3), yet the fifth
benchmarked call for the same problem size dispatches alternative 1 again
and appends a new sample to its series — discarded alternatives with an
index above the first live one are re-sampled. -/
theorem c1_counterexample :
    nanLe (((c1run3.tune.times 0).map medianQ)[1]?.getD none)
      (nanMul (pyMin ((c1run3.tune.times 0).map medianQ)) c1cfg.pruning_speedup) = false ∧
    c1run3.tune.best_idx 0 = -1 ∧
    c1run3.tune.current_round 0 = 1 ∧
    (bestOfCall c1cfg c1run4 0 0 0 10 id).1 = .invoked 11 ∧
    ((bestOfCall c1cfg c1run4 0 0 0 10 id).2.tune.times 0)[1]? = some [10, 10] := by
  decide

/-- C1 (amended): when the pruning evaluation runs at cursor 0 and neither
selects (the round budget is not exhausted and more than one alternative is
below the threshold), the cursor is advanced to the SMALLEST still-live
alternative index: discarded alternatives below the first live index are
skipped at this point, but the subsequent dispatches advance round-robin
from there, so discarded alternatives with larger indices are still
re-sampled in future rounds (see the counterexample). -/
theorem c1_prune_cursor_advance (cfg : BestOfConfig) (t : TuneState) (ps round i : Nat)
    (hg : min cfg.prune_after_round cfg.rounds ≤ round)
    (hsel : ¬(round = cfg.rounds ∨
      (((t.times ps).map medianQ).filter
        (fun x => nanLe x (nanMul (pyMin ((t.times ps).map medianQ)) cfg.pruning_speedup))).length
        = 1))
    (hi : i < ((t.times ps).map medianQ).length)
    (hlive : nanLe (((t.times ps).map medianQ)[i]?.getD none)
      (nanMul (pyMin ((t.times ps).map medianQ)) cfg.pruning_speedup) = true)
    (hmin : ∀ j, j < i → nanLe (((t.times ps).map medianQ)[j]?.getD none)
      (nanMul (pyMin ((t.times ps).map medianQ)) cfg.pruning_speedup) = false) :
    decidePhase cfg t ps 0 round = (t, i, .noSelection) := by
  unfold decidePhase
  dsimp only
  rw [if_pos ⟨rfl, hg⟩, if_neg hsel, List.drop_zero,
    scanLive_first _ _ 0 i hi hlive hmin]
  simp

/-- Tuning state used by the C1 witness: medians 10, 1, 3/2 for problem
size 0, whose first live index under threshold 2 is 1. -/
def c1t : TuneState :=
  { initTune c1cfg with
    times := fun p => if p = 0 then [[10], [1], [3/2]] else [[], [], []] }

attribute [local semireducible] Rat.add Rat.mul Rat.sub Rat.inv in
/-- Witness for C1 (amended) at a concrete pruning evaluation: the cursor
jumps to index 1, the first live alternative, skipping discarded index 0. -/
theorem c1_witness : decidePhase c1cfg c1t 0 0 1 = (c1t, 1, .noSelection) := by
  exact c1_prune_cursor_advance c1cfg c1t 0 1 1 (by decide) (by decide) (by decide) (by decide)
    (fun j hj => by
      have hj0 : j = 0 := by omega
      subst hj0
      decide)

/-! ### Median, minimum and index lemmas -/

theorem length_insertSorted (x : ℚ) (l : List ℚ) :
    (insertSorted x l).length = l.length + 1 := by
  induction l with
  | nil => rfl
  | cons y ys ih => by_cases h : x ≤ y <;> simp [insertSorted, h, ih]

theorem length_sortQ (l : List ℚ) : (sortQ l).length = l.length := by
  induction l with
  | nil => rfl
  | cons x xs ih => simp [sortQ, length_insertSorted, ih]

theorem medianQ_isSome (l : List ℚ) (h : l ≠ []) : (medianQ l).isSome = true := by
  unfold medianQ
  dsimp only
  have hlen : (sortQ l).length = l.length := length_sortQ l
  have hne : ¬ (sortQ l).length = 0 := by
    rw [hlen]
    simpa using h
  rw [if_neg hne]
  have hpos : 0 < (sortQ l).length := by omega
  have hdiv : (sortQ l).length / 2 < (sortQ l).length := Nat.div_lt_self hpos (by omega)
  by_cases hodd : (sortQ l).length % 2 = 1
  · rw [if_pos hodd, List.getElem?_eq_getElem hdiv]
    rfl
  · rw [if_neg hodd]
    have hdiv1 : (sortQ l).length / 2 - 1 < (sortQ l).length := by omega
    rw [List.getElem?_eq_getElem hdiv1, List.getElem?_eq_getElem hdiv]
    rfl

theorem foldl_pyMin_aux (xs : List (Option ℚ)) (a : ℚ) (hall : ∀ x ∈ xs, x.isSome = true) :
    ∃ m, xs.foldl (fun acc y => if nanLt y acc then y else acc) (some a) = some m ∧
      (m = a ∨ some m ∈ xs) ∧ m ≤ a ∧ ∀ x ∈ xs, nanLe (some m) x = true := by
  induction xs generalizing a with
  | nil => exact ⟨a, rfl, Or.inl rfl, le_refl a, by simp⟩
  | cons x xs ih =>
    obtain ⟨b, rfl⟩ : ∃ b, x = some b := by
      have := hall x (List.mem_cons_self x xs)
      cases x with
      | none => simp at this
      | some b => exact ⟨b, rfl⟩
    have hall' : ∀ x ∈ xs, x.isSome = true := fun x hx => hall x (List.mem_cons_of_mem _ hx)
    by_cases hb : b < a
    · have hstep : nanLt (some b) (some a) = true := by simp [nanLt, hb]
      obtain ⟨m, hm, hmem, hle, hmin⟩ := ih b hall'
      refine ⟨m, ?_, ?_, ?_, ?_⟩
      · simpa [List.foldl_cons, hstep] using hm
      · rcases hmem with h | h
        · exact Or.inr (h ▸ List.mem_cons_self _ _)
        · exact Or.inr (List.mem_cons_of_mem _ h)
      · exact le_of_lt (lt_of_le_of_lt hle hb)
      · intro x hx
        rcases List.mem_cons.mp hx with h | h
        · subst h
          simpa [nanLe] using hle
        · exact hmin x h
    · have hstep : nanLt (some b) (some a) = false := by simp [nanLt, hb]
      obtain ⟨m, hm, hmem, hle, hmin⟩ := ih a hall'
      refine ⟨m, ?_, ?_, hle, ?_⟩
      · simpa [List.foldl_cons, hstep] using hm
      · rcases hmem with h | h
        · exact Or.inl h
        · exact Or.inr (List.mem_cons_of_mem _ h)
      · intro x hx
        rcases List.mem_cons.mp hx with h | h
        · subst h
          have : m ≤ b := le_trans hle (le_of_not_lt hb)
          simpa [nanLe] using this
        · exact hmin x h

theorem pyMin_spec (l : List (Option ℚ)) (hne : l ≠ [])
    (hall : ∀ x ∈ l, x.isSome = true) :
    ∃ m, pyMin l = some m ∧ some m ∈ l ∧ ∀ x ∈ l, nanLe (some m) x = true := by
  cases l with
  | nil => exact absurd rfl hne
  | cons x xs =>
    obtain ⟨a, rfl⟩ : ∃ a, x = some a := by
      have := hall x (List.mem_cons_self x xs)
      cases x with
      | none => simp at this
      | some a => exact ⟨a, rfl⟩
    obtain ⟨m, hm, hmem, hle, hmin⟩ :=
      foldl_pyMin_aux xs a (fun y hy => hall y (List.mem_cons_of_mem _ hy))
    refine ⟨m, hm, ?_, ?_⟩
    · rcases hmem with h | h
      · exact h ▸ List.mem_cons_self _ _
      · exact List.mem_cons_of_mem _ h
    · intro y hy
      rcases List.mem_cons.mp hy with h | h
      · subst h
        simpa [nanLe] using hle
      · exact hmin y h

theorem pyIndex_some_of_mem (l : List (Option ℚ)) (m : ℚ) (h : some m ∈ l) :
    ∃ i, pyIndex l (some m) = some i := by
  induction l with
  | nil => simp at h
  | cons x xs ih =>
    by_cases hx : nanEq x (some m) = true
    · exact ⟨0, by simp [pyIndex, hx]⟩
    · have hmem : some m ∈ xs := by
        rcases List.mem_cons.mp h with h0 | h0
        · exfalso
          subst h0
          simp [nanEq] at hx
        · exact h0
      obtain ⟨i, hi⟩ := ih hmem
      exact ⟨i + 1, by simp [pyIndex, hx, hi]⟩

theorem pyIndex_spec (l : List (Option ℚ)) (v : Option ℚ) (i : Nat)
    (h : pyIndex l v = some i) :
    i < l.length ∧ nanEq (l[i]?.getD none) v = true ∧
      ∀ j, j < i → nanEq (l[j]?.getD none) v = false := by
  induction l generalizing i with
  | nil => simp [pyIndex] at h
  | cons x xs ih =>
    by_cases hx : nanEq x v = true
    · simp [pyIndex, hx] at h
      subst h
      exact ⟨by simp, by simpa using hx, by omega⟩
    · simp [pyIndex, hx] at h
      obtain ⟨i0, hi0, rfl⟩ := h
      obtain ⟨hlt, heq, hfirst⟩ := ih i0 hi0
      refine ⟨by simpa using hlt, by simpa using heq, ?_⟩
      intro j hj
      cases j with
      | zero => simpa using (Bool.not_eq_true _).mp hx
      | succ j0 => simpa using hfirst j0 (by omega)

theorem decidePhase_select_spec (cfg : BestOfConfig) (t : TuneState) (ps round : Nat)
    (hg : min cfg.prune_after_round cfg.rounds ≤ round)
    (hKlen : (t.times ps).length = cfg.total_alternatives)
    (hK : 1 ≤ cfg.total_alternatives)
    (hne : ∀ j, j < cfg.total_alternatives → (t.times ps)[j]?.getD [] ≠ [])
    (hsel : round = cfg.rounds ∨
      (((t.times ps).map medianQ).filter
        (fun x => nanLe x (nanMul (pyMin ((t.times ps).map medianQ)) cfg.pruning_speedup))).length
        = 1) :
    ∃ bi a m,
      bi < cfg.total_alternatives ∧
      cfg.alternatives[bi]? = some a ∧
      (decidePhase cfg t ps 0 round).2.2 = .selected ∧
      (decidePhase cfg t ps 0 round).2.1 = 0 ∧
      (decidePhase cfg t ps 0 round).1.best_idx ps = (bi : Int) ∧
      (decidePhase cfg t ps 0 round).1.best_name ps = a.1 ∧
      (cfg.stages = 1 → (decidePhase cfg t ps 0 round).1.best_method ps = some a.2) ∧
      (¬ cfg.stages = 1 → (decidePhase cfg t ps 0 round).1.best_pipeline ps = some a.2) ∧
      medianQ ((t.times ps)[bi]?.getD []) = some m ∧
      (∀ j mj, j < cfg.total_alternatives →
        medianQ ((t.times ps)[j]?.getD []) = some mj → m ≤ mj) ∧
      (∀ j, j < bi → medianQ ((t.times ps)[j]?.getD []) ≠ some m) := by
  have hbl : ((t.times ps).map medianQ).length = cfg.total_alternatives := by
    simpa using hKlen
  have hall : ∀ x ∈ (t.times ps).map medianQ, x.isSome = true := by
    intro x hx
    obtain ⟨l, hl, rfl⟩ := List.mem_map.mp hx
    obtain ⟨j, hj, hjl⟩ := List.mem_iff_getElem.mp hl
    refine medianQ_isSome l ?_
    have h1 := hne j (by omega)
    rw [List.getElem?_eq_getElem hj] at h1
    simpa [hjl] using h1
  have hbne : (t.times ps).map medianQ ≠ [] := by
    intro h
    rw [h] at hbl
    simp at hbl
    omega
  obtain ⟨m, hmin_eq, hmem, hminle⟩ := pyMin_spec _ hbne hall
  obtain ⟨bi, hbi⟩ := pyIndex_some_of_mem _ m hmem
  obtain ⟨hbil, hbieq, hbifirst⟩ := pyIndex_spec _ (some m) bi hbi
  have hbiK : bi < cfg.total_alternatives := by rw [hbl] at hbil; exact hbil
  obtain ⟨a, ha⟩ : ∃ a, cfg.alternatives[bi]? = some a :=
    ⟨_, List.getElem?_eq_getElem hbiK⟩
  have hmap_j : ∀ j, j < cfg.total_alternatives →
      ((t.times ps).map medianQ)[j]?.getD none = medianQ ((t.times ps)[j]?.getD []) := by
    intro j hj
    have hj2 : j < (t.times ps).length := by omega
    rw [List.getElem?_map, List.getElem?_eq_getElem hj2]
    rfl
  have hbts_bi : ((t.times ps).map medianQ)[bi]?.getD none = some m := by
    rcases hx : ((t.times ps).map medianQ)[bi]?.getD none with _ | y
    · rw [hx] at hbieq
      simp [nanEq] at hbieq
    · rw [hx] at hbieq
      simp [nanEq] at hbieq
      rw [hbieq]
  have hmed_bi : medianQ ((t.times ps)[bi]?.getD []) = some m := by
    rw [← hmap_j bi hbiK]
    exact hbts_bi
  have hmono : ∀ j mj, j < cfg.total_alternatives →
      medianQ ((t.times ps)[j]?.getD []) = some mj → m ≤ mj := by
    intro j mj hj hmj
    have hjl : j < ((t.times ps).map medianQ).length := by omega
    have hx : ((t.times ps).map medianQ)[j]?.getD none = some mj := by
      rw [hmap_j j hj, hmj]
    have hx2 : ((t.times ps).map medianQ)[j]? = some (some mj) := by
      rw [List.getElem?_eq_getElem hjl] at hx ⊢
      simp only [Option.getD_some] at hx
      rw [hx]
    have hmemj : some mj ∈ (t.times ps).map medianQ := List.getElem?_mem hx2
    have := hminle _ hmemj
    simpa [nanLe] using this
  have hfirst : ∀ j, j < bi → medianQ ((t.times ps)[j]?.getD []) ≠ some m := by
    intro j hj hcontra
    have hx := hbifirst j hj
    rw [hmap_j j (by omega), hcontra] at hx
    simp [nanEq] at hx
  have hval : decidePhase cfg t ps 0 round =
      (if cfg.stages = 1 then
        { t with best_idx := upd t.best_idx ps (bi : Int),
                 best_name := upd t.best_name ps a.1,
                 best_method := upd t.best_method ps (some a.2) }
       else
        { t with best_idx := upd t.best_idx ps (bi : Int),
                 best_name := upd t.best_name ps a.1,
                 best_pipeline := upd t.best_pipeline ps (some a.2) },
       0, .selected) := by
    unfold decidePhase
    dsimp only
    rw [if_pos ⟨rfl, hg⟩, if_pos hsel, hmin_eq, hbi]
    dsimp only
    rw [ha]
  refine ⟨bi, a, m, hbiK, ha, ?_, ?_, ?_, ?_, ?_, ?_, hmed_bi, hmono, hfirst⟩
  · rw [hval]
  · rw [hval]
  · rw [hval]
    split <;> simp [upd_same]
  · rw [hval]
    split <;> simp [upd_same]
  · intro hs
    rw [hval, if_pos hs]
    simp [upd_same]
  · intro hs
    rw [hval, if_neg hs]
    simp [upd_same]

theorem writeBack_best_name (t : TuneState) (ps c r : Nat) :
    (writeBack t ps c r).best_name = t.best_name := rfl

theorem writeBack_best_method (t : TuneState) (ps c r : Nat) :
    (writeBack t ps c r).best_method = t.best_method := rfl

theorem writeBack_best_pipeline (t : TuneState) (ps c r : Nat) :
    (writeBack t ps c r).best_pipeline = t.best_pipeline := rfl

theorem writeBack_stages_times (t : TuneState) (ps c r : Nat) :
    (writeBack t ps c r).stages_times = t.stages_times := rfl

theorem writeBack_alt_other (t : TuneState) (ps c r ps0 : Nat) (h : ps0 ≠ ps) :
    (writeBack t ps c r).current_alternative ps0 = t.current_alternative ps0 :=
  upd_other _ _ _ _ h

theorem writeBack_round_other (t : TuneState) (ps c r ps0 : Nat) (h : ps0 ≠ ps) :
    (writeBack t ps c r).current_round ps0 = t.current_round ps0 :=
  upd_other _ _ _ _ h

theorem benchCall_preserves_key (cfg : BestOfConfig) (st2 : EngineState) (nid ps2 : Nat)
    (stage : Int) (e : ℚ) (eff : EngineState → EngineState)
    (heff : ∀ x, (eff x).tune = x.tune) (ps0 : Nat) (hps : ps0 ≠ ps2) :
    (benchCall cfg st2 nid ps2 stage e eff).2.tune.best_idx ps0 = st2.tune.best_idx ps0 ∧
    (benchCall cfg st2 nid ps2 stage e eff).2.tune.best_name ps0 = st2.tune.best_name ps0 ∧
    (benchCall cfg st2 nid ps2 stage e eff).2.tune.best_method ps0 = st2.tune.best_method ps0 ∧
    (benchCall cfg st2 nid ps2 stage e eff).2.tune.best_pipeline ps0
      = st2.tune.best_pipeline ps0 ∧
    (benchCall cfg st2 nid ps2 stage e eff).2.tune.times ps0 = st2.tune.times ps0 ∧
    (benchCall cfg st2 nid ps2 stage e eff).2.tune.current_alternative ps0
      = st2.tune.current_alternative ps0 ∧
    (benchCall cfg st2 nid ps2 stage e eff).2.tune.current_round ps0
      = st2.tune.current_round ps0 := by
  have haft : ∀ s n, (afterEff eff s n).tune = s.tune := fun s n => afterEff_tune eff s n heff
  unfold benchCall
  dsimp only
  rcases h : altCallable cfg ((blockParent st2 nid).tune.current_alternative ps2) stage
    with _ | f
  · dsimp only
    simp [benchPre_tune]
  · dsimp only
    by_cases hb : (getNode (afterEff eff st2 nid) nid).isBlocked = true
    · rw [hb, if_pos rfl]
      dsimp only
      simp [haft]
    · have hb' : (getNode (afterEff eff st2 nid) nid).isBlocked = false := by
        simpa using hb
      rw [hb']
      simp only [Bool.false_eq_true, if_false]
      rcases hfl : (decidePhase cfg
          (recordPhase cfg (afterEff eff st2 nid).tune ps2 stage
            ((blockParent st2 nid).tune.current_alternative ps2) e).1 ps2
          (recordPhase cfg (afterEff eff st2 nid).tune ps2 stage
            ((blockParent st2 nid).tune.current_alternative ps2) e).2.1
          (recordPhase cfg (afterEff eff st2 nid).tune ps2 stage
            ((blockParent st2 nid).tune.current_alternative ps2) e).2.2).2.2 with _ | _ | _
      all_goals dsimp only
      all_goals simp [unblockParent_tune, writeBack_best_name, writeBack_best_method,
        writeBack_best_pipeline, writeBack_best_idx, writeBack_times,
        writeBack_alt_other _ _ _ _ _ hps, writeBack_round_other _ _ _ _ _ hps,
        decidePhase_best_idx_other _ _ _ _ _ _ hps, decidePhase_best_name_other _ _ _ _ _ _ hps,
        decidePhase_best_method_other _ _ _ _ _ _ hps,
        decidePhase_best_pipeline_other _ _ _ _ _ _ hps,
        decidePhase_times, decidePhase_alt_map, decidePhase_round_map,
        recordPhase_best_idx, recordPhase_best_name, recordPhase_best_method,
        recordPhase_best_pipeline, recordPhase_times_other _ _ _ _ _ _ _ hps,
        recordPhase_alt_map, recordPhase_round_map, haft]

theorem bestOfCall_preserves_key (cfg : BestOfConfig) (st : EngineState) (execId ps2 : Nat)
    (stageArg : Int) (e : ℚ) (eff : EngineState → EngineState)
    (heff : ∀ x, (eff x).tune = x.tune) (ps0 : Nat)
    (hc : ps2 = ps0 →
      (cfg.stages = 1 → st.tune.best_method ps0 ≠ none) ∧
      (¬ cfg.stages = 1 → st.tune.best_pipeline ps0 ≠ none)) :
    (bestOfCall cfg st execId ps2 stageArg e eff).2.tune.best_idx ps0
      = st.tune.best_idx ps0 ∧
    (bestOfCall cfg st execId ps2 stageArg e eff).2.tune.best_name ps0
      = st.tune.best_name ps0 ∧
    (bestOfCall cfg st execId ps2 stageArg e eff).2.tune.best_method ps0
      = st.tune.best_method ps0 ∧
    (bestOfCall cfg st execId ps2 stageArg e eff).2.tune.best_pipeline ps0
      = st.tune.best_pipeline ps0 ∧
    (bestOfCall cfg st execId ps2 stageArg e eff).2.tune.times ps0
      = st.tune.times ps0 ∧
    (bestOfCall cfg st execId ps2 stageArg e eff).2.tune.current_alternative ps0
      = st.tune.current_alternative ps0 ∧
    (bestOfCall cfg st execId ps2 stageArg e eff).2.tune.current_round ps0
      = st.tune.current_round ps0 := by
  have hregt := register_tune st execId
  unfold bestOfCall
  dsimp only
  by_cases h1 : (cfg.stages : Int) ≤ (if 1 < cfg.stages then stageArg else 0)
  · rw [if_pos h1]
    dsimp only
    simp [hregt]
  · rw [if_neg h1]
    by_cases h2 : (register st execId).2.use_first_alternative = true
    · rw [h2, if_pos rfl]
      rcases h3 : altCallable cfg 0 (if 1 < cfg.stages then stageArg else 0) with _ | f
      all_goals dsimp only
      all_goals simp [hregt]
    · have h2' : (register st execId).2.use_first_alternative = false := by
        simpa using h2
      rw [h2']
      simp only [Bool.false_eq_true, if_false]
      by_cases hs : cfg.stages = 1
      · rw [if_pos hs]
        rcases h4 : (setProblemSize (register st execId).2 (register st execId).1
            ps2).tune.best_method ps2 with _ | impl
        · dsimp only
          have hps : ps0 ≠ ps2 := by
            intro hEq
            rw [setProblemSize_tune, hregt] at h4
            rw [← hEq] at h4
            exact (hc hEq.symm).1 hs h4
          have hbase := benchCall_preserves_key cfg
            (setProblemSize (register st execId).2 (register st execId).1 ps2)
            (register st execId).1 ps2 (if 1 < cfg.stages then stageArg else 0) e eff heff
            ps0 hps
          simpa [setProblemSize_tune, hregt] using hbase
        · rcases impl with f | fs
          all_goals dsimp only
          all_goals simp [setProblemSize_tune, hregt]
      · rw [if_neg hs]
        rcases h4 : (setProblemSize (register st execId).2 (register st execId).1
            ps2).tune.best_pipeline ps2 with _ | impl
        · dsimp only
          have hps : ps0 ≠ ps2 := by
            intro hEq
            rw [setProblemSize_tune, hregt] at h4
            rw [← hEq] at h4
            exact (hc hEq.symm).2 hs h4
          have hbase := benchCall_preserves_key cfg
            (setProblemSize (register st execId).2 (register st execId).1 ps2)
            (register st execId).1 ps2 (if 1 < cfg.stages then stageArg else 0) e eff heff
            ps0 hps
          simpa [setProblemSize_tune, hregt] using hbase
        · rcases impl with f | fs
          · dsimp only
            simp [setProblemSize_tune, hregt]
          · rcases h5 : pyGet fs (if 1 < cfg.stages then stageArg else 0) with _ | g
            all_goals dsimp only
            all_goals rw [h5]
            all_goals simp [setProblemSize_tune, hregt]

/-! ### C3: the pruning/selection decision -/

/-- C3: the pruning/selection decision is evaluated exactly when the
post-record cursor is back at index 0 and the round counter is at least
`min(prune_after_round, rounds)` — when that guard fails the phase returns
the state, cursor and round untouched with no selection, and when it holds
without the selection condition no best alternative is cached either. At a
guarded point where the round counter equals `rounds` or exactly one
alternative's median is at or below `min median × pruning_speedup` (and
every alternative has at least one recorded sample), the alternative with
the smallest median is selected with ties broken by the lowest index: the
cached index is a first attainer of the minimal median, and the cached
name/callable come from that index. The selection is permanent: any later
call of the registry, whose nested effects leave this registry's tuning
state alone, preserves the cached fields of a problem size whose selection
has been cached. -/
theorem c3_selection_rule (cfg : BestOfConfig) :
    (∀ (t : TuneState) (ps cur round : Nat),
      ¬(cur = 0 ∧ min cfg.prune_after_round cfg.rounds ≤ round) →
      decidePhase cfg t ps cur round = (t, cur, .noSelection)) ∧
    (∀ (t : TuneState) (ps round : Nat),
      min cfg.prune_after_round cfg.rounds ≤ round →
      ¬(round = cfg.rounds ∨
        (((t.times ps).map medianQ).filter
          (fun x => nanLe x (nanMul (pyMin ((t.times ps).map medianQ))
            cfg.pruning_speedup))).length = 1) →
      (decidePhase cfg t ps 0 round).1 = t ∧
      (decidePhase cfg t ps 0 round).2.2 = .noSelection) ∧
    (∀ (t : TuneState) (ps round : Nat),
      min cfg.prune_after_round cfg.rounds ≤ round →
      (t.times ps).length = cfg.total_alternatives →
      1 ≤ cfg.total_alternatives →
      (∀ j, j < cfg.total_alternatives → (t.times ps)[j]?.getD [] ≠ []) →
      (round = cfg.rounds ∨
        (((t.times ps).map medianQ).filter
          (fun x => nanLe x (nanMul (pyMin ((t.times ps).map medianQ))
            cfg.pruning_speedup))).length = 1) →
      ∃ bi a m,
        bi < cfg.total_alternatives ∧
        cfg.alternatives[bi]? = some a ∧
        (decidePhase cfg t ps 0 round).2.2 = .selected ∧
        (decidePhase cfg t ps 0 round).1.best_idx ps = (bi : Int) ∧
        (decidePhase cfg t ps 0 round).1.best_name ps = a.1 ∧
        (cfg.stages = 1 → (decidePhase cfg t ps 0 round).1.best_method ps = some a.2) ∧
        (¬ cfg.stages = 1 → (decidePhase cfg t ps 0 round).1.best_pipeline ps = some a.2) ∧
        medianQ ((t.times ps)[bi]?.getD []) = some m ∧
        (∀ j mj, j < cfg.total_alternatives →
          medianQ ((t.times ps)[j]?.getD []) = some mj → m ≤ mj) ∧
        (∀ j, j < bi → medianQ ((t.times ps)[j]?.getD []) ≠ some m)) ∧
    (∀ (st : EngineState) (execId ps0 ps2 : Nat) (stageArg : Int) (e : ℚ)
      (eff : EngineState → EngineState),
      (∀ x, (eff x).tune = x.tune) →
      (cfg.stages = 1 → st.tune.best_method ps0 ≠ none) →
      (¬ cfg.stages = 1 → st.tune.best_pipeline ps0 ≠ none) →
      (bestOfCall cfg st execId ps2 stageArg e eff).2.tune.best_idx ps0
        = st.tune.best_idx ps0 ∧
      (bestOfCall cfg st execId ps2 stageArg e eff).2.tune.best_name ps0
        = st.tune.best_name ps0 ∧
      (bestOfCall cfg st execId ps2 stageArg e eff).2.tune.best_method ps0
        = st.tune.best_method ps0 ∧
      (bestOfCall cfg st execId ps2 stageArg e eff).2.tune.best_pipeline ps0
        = st.tune.best_pipeline ps0) := by
  refine ⟨?_, ?_, ?_, ?_⟩
  · intro t ps cur round h
    unfold decidePhase
    rw [if_neg h]
  · intro t ps round hg hsel
    unfold decidePhase
    dsimp only
    rw [if_pos ⟨rfl, hg⟩, if_neg hsel]
    exact ⟨rfl, rfl⟩
  · intro t ps round hg hKlen hK hne hsel
    obtain ⟨bi, a, m, h1, h2, h3, _, h5, h6, h7, h8, h9, h10, h11⟩ :=
      decidePhase_select_spec cfg t ps round hg hKlen hK hne hsel
    exact ⟨bi, a, m, h1, h2, h3, h5, h6, h7, h8, h9, h10, h11⟩
  · intro st execId ps0 ps2 stageArg e eff heff hm hpip
    obtain ⟨p1, p2, p3, p4, _, _, _⟩ :=
      bestOfCall_preserves_key cfg st execId ps2 stageArg e eff heff ps0
        (fun _ => ⟨hm, hpip⟩)
    exact ⟨p1, p2, p3, p4⟩

/-- Registry used by the C3 witness: the spec's own scenario — medians
A = 10, B = 1, C = 50, `pruning_speedup = 5`, `prune_after_round = 2`,
`rounds = 10`. -/
def c3cfg : BestOfConfig :=
  { name := "w3", alternatives := [("A", .single 10), ("B", .single 11), ("C", .single 12)],
    rounds := 10, pruning_speedup := 5, prune_after_round := 2, stages := 1 }

/-- Tuning state used by the C3 witness: two samples per alternative. -/
def c3t : TuneState :=
  { initTune c3cfg with
    times := fun p => if p = 0 then [[10, 10], [1, 1], [50, 50]] else [[], [], []] }

attribute [local semireducible] Rat.add Rat.mul Rat.sub Rat.inv in
/-- Witness for C3 at a concrete selection point (round 2): only B is below
the threshold, so B (index 1) is selected and cached; at round 1 the guard
fails and the phase changes nothing. -/
theorem c3_witness :
    (decidePhase c3cfg c3t 0 0 2).2.2 = .selected ∧
    (decidePhase c3cfg c3t 0 0 2).1.best_idx 0 = 1 ∧
    (decidePhase c3cfg c3t 0 0 2).1.best_name 0 = "B" ∧
    (decidePhase c3cfg c3t 0 0 2).1.best_method 0 = some (.single 11) ∧
    decidePhase c3cfg c3t 0 0 1 = (c3t, 0, .noSelection) := by
  have h := (c3_selection_rule c3cfg).2.2.1 c3t 0 2 (by decide) (by decide) (by decide)
    (fun j hj => by
      have hj3 : j = 0 ∨ j = 1 ∨ j = 2 := by
        have : c3cfg.total_alternatives = 3 := by decide
        omega
      rcases hj3 with rfl | rfl | rfl <;> decide)
    (by decide)
  have hA := (c3_selection_rule c3cfg).1 c3t 0 0 1 (by decide)
  obtain ⟨bi, a, m, _, _, hsel, _⟩ := h
  exact ⟨hsel, by decide, by decide, by decide, hA⟩

/-! ### C10: cached-selection consistency invariant -/

/-- Consistency of the per-problem-size learned state with the registry:
the recorded sample table always has one row per alternative, and whenever a
selection exists (`best_idx ≠ -1`) the stored index is in range, the stored
name is the name registered at that index, and the cached callable
(`best_method` for single-stage registries, `best_pipeline` otherwise) is
exactly the implementation registered at that index. -/
@[reducible] def TuneInv (cfg : BestOfConfig) (t : TuneState) : Prop :=
  ∀ ps, (t.times ps).length = cfg.total_alternatives ∧
    (t.best_idx ps ≠ -1 →
      ∃ (i : Nat) (a : String × AltImpl),
        t.best_idx ps = (i : Int) ∧ i < cfg.total_alternatives ∧
        cfg.alternatives[i]? = some a ∧ t.best_name ps = a.1 ∧
        (cfg.stages = 1 → t.best_method ps = some a.2) ∧
        (¬ cfg.stages = 1 → t.best_pipeline ps = some a.2))

theorem recordPhase_times_length (cfg : BestOfConfig) (t : TuneState) (ps : Nat)
    (stage : Int) (cur : Nat) (e : ℚ) (q : Nat) :
    ((recordPhase cfg t ps stage cur e).1.times q).length = (t.times q).length := by
  by_cases hq : q = ps
  · subst hq
    unfold recordPhase
    dsimp only
    repeat' split
    all_goals simp [upd_same]
  · rw [recordPhase_times_other _ _ _ _ _ _ _ hq]

theorem TuneInv_recordPhase (cfg : BestOfConfig) (t : TuneState) (ps : Nat)
    (stage : Int) (cur : Nat) (e : ℚ) (h : TuneInv cfg t) :
    TuneInv cfg (recordPhase cfg t ps stage cur e).1 := by
  intro q
  refine ⟨?_, ?_⟩
  · rw [recordPhase_times_length]
    exact (h q).1
  · rw [recordPhase_best_idx, recordPhase_best_name, recordPhase_best_method,
      recordPhase_best_pipeline]
    exact (h q).2

theorem TuneInv_decidePhase (cfg : BestOfConfig) (t : TuneState) (ps cur round : Nat)
    (h : TuneInv cfg t) : TuneInv cfg (decidePhase cfg t ps cur round).1 := by
  unfold decidePhase
  dsimp only
  split
  · split
    · split
      · exact h
      · rename_i bi hbieq
        split
        · rename_i halt
          exfalso
          obtain ⟨hlt, _, _⟩ := pyIndex_spec _ _ _ hbieq
          have hbl : bi < cfg.alternatives.length := by
            have hKl := (h ps).1
            simp only [List.length_map] at hlt
            have : cfg.total_alternatives = cfg.alternatives.length := rfl
            omega
          rw [List.getElem?_eq_getElem hbl] at halt
          simp at halt
        · rename_i a halt
          obtain ⟨hlt, _, _⟩ := pyIndex_spec _ _ _ hbieq
          have hbiK : bi < cfg.total_alternatives := by
            have hKl := (h ps).1
            simp only [List.length_map] at hlt
            omega
          split
          · rename_i hs
            intro q
            by_cases hq : q = ps
            · subst hq
              refine ⟨(h q).1, fun _ => ?_⟩
              exact ⟨bi, a, by simp [upd_same], hbiK, halt, by simp [upd_same],
                fun _ => by simp [upd_same],
                fun hns => absurd hs hns⟩
            · refine ⟨(h q).1, fun hne => ?_⟩
              simp only [upd_other _ _ _ _ hq] at hne ⊢
              exact (h q).2 hne
          · rename_i hs
            intro q
            by_cases hq : q = ps
            · subst hq
              refine ⟨(h q).1, fun _ => ?_⟩
              exact ⟨bi, a, by simp [upd_same], hbiK, halt, by simp [upd_same],
                fun hs1 => absurd hs1 hs,
                fun _ => by simp [upd_same]⟩
            · refine ⟨(h q).1, fun hne => ?_⟩
              simp only [upd_other _ _ _ _ hq] at hne ⊢
              exact (h q).2 hne
    · exact h
  · exact h

theorem TuneInv_writeBack (cfg : BestOfConfig) (t : TuneState) (ps c r : Nat)
    (h : TuneInv cfg t) : TuneInv cfg (writeBack t ps c r) := by
  intro q
  exact ⟨(h q).1, (h q).2⟩

theorem TuneInv_benchCall (cfg : BestOfConfig) (st2 : EngineState) (nid ps : Nat)
    (stage : Int) (e : ℚ) (eff : EngineState → EngineState)
    (heff : ∀ x, (eff x).tune = x.tune) (h : TuneInv cfg st2.tune) :
    TuneInv cfg (benchCall cfg st2 nid ps stage e eff).2.tune := by
  have haft : (afterEff eff st2 nid).tune = st2.tune := afterEff_tune eff st2 nid heff
  have hrec : TuneInv cfg (recordPhase cfg (afterEff eff st2 nid).tune ps stage
      ((blockParent st2 nid).tune.current_alternative ps) e).1 := by
    rw [haft]
    exact TuneInv_recordPhase _ _ _ _ _ _ h
  have hdec := TuneInv_decidePhase cfg _ ps
    (recordPhase cfg (afterEff eff st2 nid).tune ps stage
      ((blockParent st2 nid).tune.current_alternative ps) e).2.1
    (recordPhase cfg (afterEff eff st2 nid).tune ps stage
      ((blockParent st2 nid).tune.current_alternative ps) e).2.2 hrec
  unfold benchCall
  dsimp only
  rcases haltc : altCallable cfg ((blockParent st2 nid).tune.current_alternative ps) stage
    with _ | f
  · dsimp only
    rw [benchPre_tune]
    exact h
  · dsimp only
    by_cases hb : (getNode (afterEff eff st2 nid) nid).isBlocked = true
    · rw [hb, if_pos rfl]
      dsimp only
      rw [haft]
      exact h
    · have hb' : (getNode (afterEff eff st2 nid) nid).isBlocked = false := by
        simpa using hb
      rw [hb']
      simp only [Bool.false_eq_true, if_false]
      rcases hfl : (decidePhase cfg
          (recordPhase cfg (afterEff eff st2 nid).tune ps stage
            ((blockParent st2 nid).tune.current_alternative ps) e).1 ps
          (recordPhase cfg (afterEff eff st2 nid).tune ps stage
            ((blockParent st2 nid).tune.current_alternative ps) e).2.1
          (recordPhase cfg (afterEff eff st2 nid).tune ps stage
            ((blockParent st2 nid).tune.current_alternative ps) e).2.2).2.2 with _ | _ | _
      all_goals dsimp only
      · exact TuneInv_writeBack _ _ _ _ _ hdec
      · rw [unblockParent_tune]
        dsimp only
        exact TuneInv_writeBack _ _ _ _ _ hdec
      · exact hdec

theorem TuneInv_bestOfCall (cfg : BestOfConfig) (st : EngineState) (execId ps : Nat)
    (stageArg : Int) (e : ℚ) (eff : EngineState → EngineState)
    (heff : ∀ x, (eff x).tune = x.tune) (h : TuneInv cfg st.tune) :
    TuneInv cfg (bestOfCall cfg st execId ps stageArg e eff).2.tune := by
  have hregt := register_tune st execId
  have hst2 : TuneInv cfg (setProblemSize (register st execId).2 (register st execId).1
      ps).tune := by
    rw [setProblemSize_tune, hregt]
    exact h
  unfold bestOfCall
  dsimp only
  by_cases h1 : (cfg.stages : Int) ≤ (if 1 < cfg.stages then stageArg else 0)
  · rw [if_pos h1]
    dsimp only
    rw [hregt]
    exact h
  · rw [if_neg h1]
    by_cases h2 : (register st execId).2.use_first_alternative = true
    · rw [h2, if_pos rfl]
      rcases h3 : altCallable cfg 0 (if 1 < cfg.stages then stageArg else 0) with _ | f
      all_goals dsimp only
      all_goals rw [hregt]
      all_goals exact h
    · have h2' : (register st execId).2.use_first_alternative = false := by
        simpa using h2
      rw [h2']
      simp only [Bool.false_eq_true, if_false]
      by_cases hs : cfg.stages = 1
      · rw [if_pos hs]
        rcases h4 : (setProblemSize (register st execId).2 (register st execId).1
            ps).tune.best_method ps with _ | impl
        · dsimp only
          exact TuneInv_benchCall cfg _ _ _ _ _ _ heff hst2
        · rcases impl with f | fs
          all_goals dsimp only
          all_goals exact hst2
      · rw [if_neg hs]
        rcases h4 : (setProblemSize (register st execId).2 (register st execId).1
            ps).tune.best_pipeline ps with _ | impl
        · dsimp only
          exact TuneInv_benchCall cfg _ _ _ _ _ _ heff hst2
        · rcases impl with f | fs
          · dsimp only
            exact hst2
          · rcases h5 : pyGet fs (if 1 < cfg.stages then stageArg else 0) with _ | g
            all_goals dsimp only
            all_goals rw [h5]
            all_goals dsimp only
            all_goals exact hst2

/-- C10: the cached-selection fields never disagree with each other or with
the registry: the invariant `TuneInv` — whenever `best_idx[ps] ≠ -1` the
stored index is a valid position into the alternatives list, `best_name[ps]`
is the name registered at that index, and the cached callable (`best_method`
when `stages = 1`, `best_pipeline` otherwise) is exactly the implementation
registered at that index — holds of the initial state and is preserved by
every call whose nested effects leave this registry's tuning state alone. -/
theorem c10_cache_consistency (cfg : BestOfConfig) :
    TuneInv cfg (initTune cfg) ∧
    ∀ (st : EngineState) (execId ps : Nat) (stageArg : Int) (e : ℚ)
      (eff : EngineState → EngineState),
      (∀ x, (eff x).tune = x.tune) → TuneInv cfg st.tune →
      TuneInv cfg (bestOfCall cfg st execId ps stageArg e eff).2.tune := by
  constructor
  · intro ps
    exact ⟨by simp [initTune], fun hne => absurd rfl hne⟩
  · intro st execId ps stageArg e eff heff h
    exact TuneInv_bestOfCall cfg st execId ps stageArg e eff heff h

/-- Registry used by the C10 witness. -/
def c10cfg : BestOfConfig :=
  { name := "w10", alternatives := [("a", .single 10)],
    rounds := 10, pruning_speedup := 2, prune_after_round := 4, stages := 1 }

/-- Witness for C10: the invariant holds initially and after a concrete
call. -/
theorem c10_witness :
    TuneInv c10cfg (initTune c10cfg) ∧
    TuneInv c10cfg (bestOfCall c10cfg (initEngine c10cfg) 0 0 0 1 id).2.tune := by
  have h := c10_cache_consistency c10cfg
  exact ⟨h.1, h.2 (initEngine c10cfg) 0 0 0 1 id (fun _ => rfl) h.1⟩

/-! ### C4: round-robin sampling machinery -/

/-- Number of benchmarked calls among the first `t` of a single-size
single-stage run that sample alternative `j`: one per completed round plus
one more when the cursor has already passed `j` in the current round. -/
def rrCount (t K j : Nat) : Nat :=
  t / K + (if j < t % K then 1 else 0)

theorem evolve_rr (cfg : BestOfConfig) (hs : cfg.stages = 1)
    (hK : 1 ≤ cfg.total_alternatives) (stage : Int) (t : Nat) :
    evolve cfg stage (t % cfg.total_alternatives) (t / cfg.total_alternatives)
      = ((t + 1) % cfg.total_alternatives, (t + 1) / cfg.total_alternatives) := by
  unfold evolve
  rw [if_pos (Or.inl hs)]
  dsimp only
  have hmod : (t % cfg.total_alternatives + 1) % cfg.total_alternatives
      = (t + 1) % cfg.total_alternatives := by
    conv_rhs => rw [Nat.add_mod]
    rcases Nat.lt_or_ge 1 cfg.total_alternatives with h2 | h2
    · rw [Nat.mod_eq_of_lt h2]
    · have hK1 : cfg.total_alternatives = 1 := by omega
      simp [hK1]
  rw [hmod]
  simp only [Prod.mk.injEq, true_and]
  by_cases hz : (t + 1) % cfg.total_alternatives = 0
  · rw [if_pos hz, Nat.succ_div, if_pos (Nat.dvd_of_mod_eq_zero hz)]
  · rw [if_neg hz, Nat.succ_div, if_neg (fun hd => hz (Nat.dvd_iff_mod_eq_zero.mp hd))]
    omega

theorem rr_guard_false (K m t : Nat) (h : t + 1 < K * m) :
    ¬((t + 1) % K = 0 ∧ m ≤ (t + 1) / K) := by
  rintro ⟨hz, hge⟩
  have hdvd : K ∣ (t + 1) := Nat.dvd_of_mod_eq_zero hz
  have h2 : K * m ≤ K * ((t + 1) / K) := Nat.mul_le_mul_left K hge
  rw [Nat.mul_div_cancel' hdvd] at h2
  omega

theorem rrCount_step (K t j : Nat) (hK : 1 ≤ K) (hj : j < K) :
    rrCount (t + 1) K j = rrCount t K j + (if j = t % K then 1 else 0) := by
  have hr : t % K < K := Nat.mod_lt t (by omega)
  have hdecomp := Nat.div_add_mod t K
  by_cases hwrap : t % K + 1 = K
  · have hdvd : K ∣ (t + 1) := by
      refine ⟨t / K + 1, ?_⟩
      rw [Nat.mul_add, Nat.mul_one]
      omega
    have hz : (t + 1) % K = 0 := Nat.dvd_iff_mod_eq_zero.mp hdvd
    have hdiv : (t + 1) / K = t / K + 1 := by
      rw [Nat.succ_div, if_pos hdvd]
    unfold rrCount
    rw [hz, hdiv]
    have htK : t % K = K - 1 := by omega
    rw [htK]
    by_cases hj2 : j = K - 1
    · subst hj2
      simp
    · have hj3 : j < K - 1 := by omega
      simp [hj3, hj2]
  · have hmod1 : (t + 1) % K = t % K + 1 := by
      have hK2 : 2 ≤ K := by omega
      conv_lhs => rw [Nat.add_mod]
      rw [Nat.mod_eq_of_lt (by omega : 1 < K),
        Nat.mod_eq_of_lt (by omega : t % K + 1 < K)]
    have hdiv : (t + 1) / K = t / K := by
      rw [Nat.succ_div, if_neg (fun hd => by
        have := Nat.dvd_iff_mod_eq_zero.mp hd
        omega)]
      omega
    unfold rrCount
    rw [hmod1, hdiv]
    by_cases hj2 : j = t % K
    · subst hj2
      simp
    · by_cases hj3 : j < t % K
      · have : j < t % K + 1 := by omega
        simp [hj3, hj2, this]
      · have : ¬ j < t % K + 1 := by omega
        simp [hj3, hj2, this]

theorem rrCount_wrap_pos (K t j : Nat) (hK : 1 ≤ K) (hz : (t + 1) % K = 0) :
    1 ≤ rrCount (t + 1) K j := by
  unfold rrCount
  have hdvd : K ∣ (t + 1) := Nat.dvd_of_mod_eq_zero hz
  have hle : K ≤ t + 1 := Nat.le_of_dvd (by omega) hdvd
  have : 1 ≤ (t + 1) / K := (Nat.one_le_div_iff (by omega)).mpr hle
  omega

theorem altCallable_single (cfg : BestOfConfig) (hv : cfg.valid = true)
    (hs : cfg.stages = 1) (i : Nat) (hi : i < cfg.total_alternatives) (s : Int) :
    ∃ nm f, cfg.alternatives[i]? = some (nm, .single f) ∧ altCallable cfg i s = some f := by
  obtain ⟨a, ha⟩ : ∃ a, cfg.alternatives[i]? = some a := ⟨_, List.getElem?_eq_getElem hi⟩
  have hmem : a ∈ cfg.alternatives := List.getElem?_mem ha
  have hok : altOk cfg.stages a = true := by
    unfold BestOfConfig.valid at hv
    simp only [Bool.and_eq_true, List.all_eq_true] at hv
    exact hv.2 a hmem
  rcases a with ⟨nm, impl⟩
  rcases impl with f | fs
  · refine ⟨nm, f, ha, ?_⟩
    unfold altCallable
    rw [ha]
    dsimp only
    rw [if_pos hs]
  · exfalso
    unfold altOk at hok
    rw [hs] at hok
    simp at hok

theorem decidePhase_not_crash (cfg : BestOfConfig) (t : TuneState) (ps cur round : Nat)
    (hKlen : (t.times ps).length = cfg.total_alternatives)
    (hK : 1 ≤ cfg.total_alternatives)
    (hne : ∀ j, j < cfg.total_alternatives → (t.times ps)[j]?.getD [] ≠ []) :
    (decidePhase cfg t ps cur round).2.2 ≠ .crash := by
  by_cases hg : cur = 0 ∧ min cfg.prune_after_round cfg.rounds ≤ round
  · obtain ⟨hc0, hgr⟩ := hg
    subst hc0
    by_cases hsel : round = cfg.rounds ∨
        (((t.times ps).map medianQ).filter
          (fun x => nanLe x (nanMul (pyMin ((t.times ps).map medianQ))
            cfg.pruning_speedup))).length = 1
    · obtain ⟨bi, a, m, _, _, h3, _⟩ :=
        decidePhase_select_spec cfg t ps round hgr hKlen hK hne hsel
      rw [h3]
      simp
    · unfold decidePhase
      dsimp only
      rw [if_pos ⟨rfl, hgr⟩, if_neg hsel]
      simp
  · unfold decidePhase
    rw [if_neg hg]
    simp

theorem benchCall_invoked_times (cfg : BestOfConfig) (st2 : EngineState) (nid ps : Nat)
    (stage : Int) (e : ℚ) (eff : EngineState → EngineState) (f : Nat)
    (hfc : altCallable cfg ((blockParent st2 nid).tune.current_alternative ps) stage = some f)
    (hnb : (getNode (afterEff eff st2 nid) nid).isBlocked = false)
    (hnc : (decidePhase cfg
        (recordPhase cfg (afterEff eff st2 nid).tune ps stage
          ((blockParent st2 nid).tune.current_alternative ps) e).1 ps
        (recordPhase cfg (afterEff eff st2 nid).tune ps stage
          ((blockParent st2 nid).tune.current_alternative ps) e).2.1
        (recordPhase cfg (afterEff eff st2 nid).tune ps stage
          ((blockParent st2 nid).tune.current_alternative ps) e).2.2).2.2 ≠ .crash) :
    (benchCall cfg st2 nid ps stage e eff).1 = .invoked f ∧
    (benchCall cfg st2 nid ps stage e eff).2.tune.times =
      (recordPhase cfg (afterEff eff st2 nid).tune ps stage
        ((blockParent st2 nid).tune.current_alternative ps) e).1.times := by
  unfold benchCall
  dsimp only
  rw [hfc]
  dsimp only
  rw [hnb]
  simp only [Bool.false_eq_true, if_false]
  rcases hflag : (decidePhase cfg
      (recordPhase cfg (afterEff eff st2 nid).tune ps stage
        ((blockParent st2 nid).tune.current_alternative ps) e).1 ps
      (recordPhase cfg (afterEff eff st2 nid).tune ps stage
        ((blockParent st2 nid).tune.current_alternative ps) e).2.1
      (recordPhase cfg (afterEff eff st2 nid).tune ps stage
        ((blockParent st2 nid).tune.current_alternative ps) e).2.2).2.2 with _ | _ | _
  · refine ⟨rfl, ?_⟩
    dsimp only
    rw [writeBack_times, decidePhase_times]
  · refine ⟨rfl, ?_⟩
    dsimp only
    rw [unblockParent_tune]
    dsimp only
    rw [writeBack_times, decidePhase_times]
  · exact absurd hflag hnc

/-- Tuning state after the sample of one benchmarked single-stage call has
been appended at the cursor. -/
def rrRecState (tn : TuneState) (ps cur : Nat) (e : ℚ) : TuneState :=
  { tn with times := upd tn.times ps ((tn.times ps).set cur ((tn.times ps)[cur]?.getD [] ++ [e])) }

/-- Shape of the engine state reached after `t` calls of a fresh
single-context, single-size, single-stage benchmarking run in which no
pruning evaluation has discarded an alternative or cached a selection:
one registered node (id 1) under the root,
nothing blocked, no cached selection, the cursor at `t mod K`, the round at
`t div K`, and each alternative's series holding its round-robin share of
the samples. -/
@[reducible] def rrShape (cfg : BestOfConfig) (execId ps : Nat) (st : EngineState)
    (t : Nat) : Prop :=
  st.use_first_alternative = false ∧
  st.current_parents = [] ∧
  st.executions execId = some 1 ∧
  (getNode st 0).parent = none ∧
  (getNode st 1).parent = some 0 ∧
  (∀ k, (getNode st 1).blocked_by k = []) ∧
  st.tune.best_method ps = none ∧
  st.tune.current_alternative ps = t % cfg.total_alternatives ∧
  st.tune.current_round ps = t / cfg.total_alternatives ∧
  (st.tune.times ps).length = cfg.total_alternatives ∧
  ∀ j, j < cfg.total_alternatives →
    ((st.tune.times ps)[j]?.getD []).length = rrCount t cfg.total_alternatives j

/-- The condition under which a pruning evaluation discards nothing: every
alternative's median lies within the pruning threshold (the minimum median
times `pruning_speedup`), so the `alternatives_below_pruning_speedup` filter
keeps every entry. -/
def allBelow (cfg : BestOfConfig) (tss : List (List ℚ)) : Bool :=
  let bts := tss.map medianQ
  bts.all (fun x => nanLe x (nanMul (pyMin bts) cfg.pruning_speedup))

theorem decidePhase_all_live (cfg : BestOfConfig) (tn : TuneState) (ps round : Nat)
    (hK2 : 2 ≤ cfg.total_alternatives)
    (hlen : (tn.times ps).length = cfg.total_alternatives)
    (hg : min cfg.prune_after_round cfg.rounds ≤ round)
    (hnr : round ≠ cfg.rounds)
    (hbel : allBelow cfg (tn.times ps) = true) :
    decidePhase cfg tn ps 0 round = (tn, 0, .noSelection) := by
  have hall : ∀ x ∈ (tn.times ps).map medianQ,
      nanLe x (nanMul (pyMin ((tn.times ps).map medianQ)) cfg.pruning_speedup) = true := by
    unfold allBelow at hbel
    exact fun x hx => List.all_eq_true.mp hbel x hx
  have hfilt : ((tn.times ps).map medianQ).filter
      (fun x => nanLe x (nanMul (pyMin ((tn.times ps).map medianQ)) cfg.pruning_speedup))
      = (tn.times ps).map medianQ := List.filter_eq_self.mpr hall
  have hlb : ((tn.times ps).map medianQ).length = cfg.total_alternatives := by
    rw [List.length_map]
    exact hlen
  obtain ⟨b0, rest, hcons⟩ : ∃ b0 rest, (tn.times ps).map medianQ = b0 :: rest := by
    cases hmq : (tn.times ps).map medianQ with
    | nil =>
      rw [hmq] at hlb
      simp at hlb
      omega
    | cons a l => exact ⟨a, l, rfl⟩
  have hsel : ¬(round = cfg.rounds ∨
      (((tn.times ps).map medianQ).filter
        (fun x => nanLe x (nanMul (pyMin ((tn.times ps).map medianQ))
          cfg.pruning_speedup))).length = 1) := by
    rintro (h | h)
    · exact hnr h
    · rw [hfilt, hlb] at h
      omega
  have hhead : nanLe b0 (nanMul (pyMin (b0 :: rest)) cfg.pruning_speedup) = true := by
    have hm := hall b0 (by rw [hcons]; exact List.mem_cons_self _ _)
    rw [hcons] at hm
    exact hm
  unfold decidePhase
  rw [if_pos ⟨rfl, hg⟩]
  dsimp only
  rw [if_neg hsel, List.drop_zero, hcons]
  simp only [scanLive]
  rw [if_pos hhead]
  rfl

theorem rrShape_step (cfg : BestOfConfig) (execId ps : Nat) (st : EngineState) (t : Nat)
    (hv : cfg.valid = true) (hs : cfg.stages = 1) (hK : 1 ≤ cfg.total_alternatives)
    (hsh : rrShape cfg execId ps st t) (e : ℚ) :
    (∃ nm f, cfg.alternatives[t % cfg.total_alternatives]? = some (nm, .single f) ∧
      (bestOfCall cfg st execId ps 0 e id).1 = .invoked f) ∧
    (bestOfCall cfg st execId ps 0 e id).2.tune.times ps =
      (st.tune.times ps).set (t % cfg.total_alternatives)
        ((st.tune.times ps)[t % cfg.total_alternatives]?.getD [] ++ [e]) ∧
    (¬((t + 1) % cfg.total_alternatives = 0 ∧
        min cfg.prune_after_round cfg.rounds ≤ (t + 1) / cfg.total_alternatives) ∨
      (2 ≤ cfg.total_alternatives ∧ (t + 1) / cfg.total_alternatives ≠ cfg.rounds ∧
        allBelow cfg ((st.tune.times ps).set (t % cfg.total_alternatives)
          ((st.tune.times ps)[t % cfg.total_alternatives]?.getD [] ++ [e])) = true) →
      rrShape cfg execId ps (bestOfCall cfg st execId ps 0 e id).2 (t + 1)) := by
  obtain ⟨huf, hpl, hex, hroot0, hpar1, hbl, hbm, hcurA, hcurR, hlen, hcnt⟩ := hsh
  obtain ⟨nm, f, hnm, hfc0⟩ := altCallable_single cfg hv hs (t % cfg.total_alternatives)
    (Nat.mod_lt _ (by omega)) (if 1 < cfg.stages then (0 : Int) else 0)
  have hreg := register_found st execId 1 hex
  have hstage : ¬ ((cfg.stages : Int) ≤ (if 1 < cfg.stages then (0 : Int) else 0)) := by
    rw [hs]
    decide
  have hm1 : (setProblemSize st 1 ps).tune.best_method ps = none := by
    rw [setProblemSize_tune]
    exact hbm
  have hcall : bestOfCall cfg st execId ps 0 e id =
      benchCall cfg (setProblemSize st 1 ps) 1 ps (if 1 < cfg.stages then (0 : Int) else 0)
        e id := by
    unfold bestOfCall
    rw [hreg]
    dsimp only
    rw [if_neg hstage, huf]
    simp only [Bool.false_eq_true, if_false]
    rw [if_pos hs, hm1]
  have hpar2 : (getNode (setProblemSize st 1 ps) 1).parent = some 0 := by
    rw [getNode_setProblemSize_parent]
    exact hpar1
  have hroot2 : (getNode (setProblemSize st 1 ps) 0).parent = none := by
    rw [getNode_setProblemSize_other _ _ _ _ (by omega : (0 : Nat) ≠ 1)]
    exact hroot0
  have hbp : blockParent (setProblemSize st 1 ps) 1 = setProblemSize st 1 ps := by
    unfold blockParent
    rw [hpar2]
    dsimp only
    rw [if_pos hroot2]
  have hst6 : afterEff id (setProblemSize st 1 ps) 1 = setProblemSize st 1 ps := by
    unfold afterEff benchPre
    dsimp only
    rw [hbp]
    dsimp only [id_eq]
    rw [List.dropLast_concat]
  have hblocked : (getNode (afterEff id (setProblemSize st 1 ps) 1) 1).isBlocked = false := by
    rw [hst6]
    unfold ExecNode.isBlocked
    rw [getNode_setProblemSize_blocked, hbl]
    rfl
  have hcur : (blockParent (setProblemSize st 1 ps) 1).tune.current_alternative ps
      = t % cfg.total_alternatives := by
    rw [hbp, setProblemSize_tune]
    exact hcurA
  have hfc : altCallable cfg
      ((blockParent (setProblemSize st 1 ps) 1).tune.current_alternative ps)
      (if 1 < cfg.stages then (0 : Int) else 0) = some f := by
    rw [hcur]
    exact hfc0
  have htuneEq : (afterEff id (setProblemSize st 1 ps) 1).tune = st.tune := by
    rw [hst6, setProblemSize_tune]
  have hrec : recordPhase cfg (afterEff id (setProblemSize st 1 ps) 1).tune ps
      (if 1 < cfg.stages then (0 : Int) else 0)
      ((blockParent (setProblemSize st 1 ps) 1).tune.current_alternative ps) e
      = (rrRecState st.tune ps (t % cfg.total_alternatives) e,
         (t + 1) % cfg.total_alternatives, (t + 1) / cfg.total_alternatives) := by
    rw [htuneEq, hcur]
    unfold recordPhase rrRecState
    dsimp only
    rw [if_pos hs, hcurR, evolve_rr cfg hs hK _ t]
  have hrecT_len : ((rrRecState st.tune ps (t % cfg.total_alternatives) e).times ps).length
      = cfg.total_alternatives := by
    unfold rrRecState
    dsimp only
    rw [upd_same]
    simp [hlen]
  have hrecT_cnt : ∀ j, j < cfg.total_alternatives →
      (((rrRecState st.tune ps (t % cfg.total_alternatives) e).times ps)[j]?.getD []).length
        = rrCount (t + 1) cfg.total_alternatives j := by
    intro j hj
    unfold rrRecState
    dsimp only
    rw [upd_same, List.getElem?_set]
    by_cases hjt : t % cfg.total_alternatives = j
    · rw [if_pos hjt]
      subst hjt
      have hjlen : t % cfg.total_alternatives < (st.tune.times ps).length := by omega
      rw [if_pos hjlen]
      simp only [Option.getD_some, List.length_append, List.length_cons, List.length_nil]
      rw [hcnt _ hj, rrCount_step _ _ _ (by omega) hj, if_pos rfl]
    · rw [if_neg hjt]
      rw [hcnt j hj, rrCount_step _ _ _ (by omega) hj,
        if_neg (fun h => hjt h.symm)]
      omega
  have hsetT : (rrRecState st.tune ps (t % cfg.total_alternatives) e).times ps
      = (st.tune.times ps).set (t % cfg.total_alternatives)
        ((st.tune.times ps)[t % cfg.total_alternatives]?.getD [] ++ [e]) := by
    unfold rrRecState
    dsimp only
    rw [upd_same]
  -- whenever the decision phase leaves the recorded state untouched and keeps
  -- the evolved cursor, the call's final state has the round-robin shape
  have htail : decidePhase cfg (rrRecState st.tune ps (t % cfg.total_alternatives) e) ps
        ((t + 1) % cfg.total_alternatives) ((t + 1) / cfg.total_alternatives)
      = (rrRecState st.tune ps (t % cfg.total_alternatives) e,
         (t + 1) % cfg.total_alternatives, .noSelection) →
      rrShape cfg execId ps (bestOfCall cfg st execId ps 0 e id).2 (t + 1) := by
    intro hdp
    have hfin : bestOfCall cfg st execId ps 0 e id =
        (.invoked f, { afterEff id (setProblemSize st 1 ps) 1 with
          tune := writeBack (rrRecState st.tune ps (t % cfg.total_alternatives) e) ps
            ((t + 1) % cfg.total_alternatives) ((t + 1) / cfg.total_alternatives) }) := by
      rw [hcall]
      unfold benchCall
      dsimp only
      rw [hfc]
      dsimp only
      rw [hblocked]
      simp only [Bool.false_eq_true, if_false]
      rw [hrec]
      dsimp only
      rw [hdp]
    rw [hfin]
    dsimp only
    refine ⟨?_, ?_, ?_, ?_, ?_, ?_, ?_, ?_, ?_, ?_, ?_⟩
    · rw [hst6]
      exact (setProblemSize_use_first st 1 ps).trans huf
    · rw [hst6]
      exact (setProblemSize_parents st 1 ps).trans hpl
    · rw [hst6]
      exact (congrFun (setProblemSize_executions st 1 ps) execId).trans hex
    · rw [getNode_withTune, hst6]
      exact hroot2
    · rw [getNode_withTune, hst6]
      exact hpar2
    · intro k
      rw [getNode_withTune, hst6, getNode_setProblemSize_blocked, hbl]
    · rw [writeBack_best_method]
      exact hbm
    · unfold writeBack
      dsimp only
      rw [upd_same]
    · unfold writeBack
      dsimp only
      rw [upd_same]
    · rw [writeBack_times]
      exact hrecT_len
    · intro j hj
      rw [writeBack_times]
      exact hrecT_cnt j hj
  -- the decision phase never crashes here: when the guard fires every series
  -- is nonempty, so the medians, minimum and index lookup all succeed
  have hnc2 : (decidePhase cfg (rrRecState st.tune ps (t % cfg.total_alternatives) e) ps
      ((t + 1) % cfg.total_alternatives) ((t + 1) / cfg.total_alternatives)).2.2
      ≠ .crash := by
    by_cases hng : (t + 1) % cfg.total_alternatives = 0 ∧
        min cfg.prune_after_round cfg.rounds ≤ (t + 1) / cfg.total_alternatives
    · have hne1 : ∀ j, j < cfg.total_alternatives →
          ((rrRecState st.tune ps (t % cfg.total_alternatives) e).times ps)[j]?.getD []
            ≠ [] := by
        intro j hj hemp
        have hc := hrecT_cnt j hj
        rw [hemp] at hc
        have hpos := rrCount_wrap_pos cfg.total_alternatives t j (by omega) hng.1
        simp at hc
        omega
      exact decidePhase_not_crash cfg (rrRecState st.tune ps (t % cfg.total_alternatives) e)
        ps ((t + 1) % cfg.total_alternatives) ((t + 1) / cfg.total_alternatives)
        hrecT_len (by omega) hne1
    · unfold decidePhase
      rw [if_neg hng]
      simp
  have hnc : (decidePhase cfg
      (recordPhase cfg (afterEff id (setProblemSize st 1 ps) 1).tune ps
        (if 1 < cfg.stages then (0 : Int) else 0)
        ((blockParent (setProblemSize st 1 ps) 1).tune.current_alternative ps) e).1 ps
      (recordPhase cfg (afterEff id (setProblemSize st 1 ps) 1).tune ps
        (if 1 < cfg.stages then (0 : Int) else 0)
        ((blockParent (setProblemSize st 1 ps) 1).tune.current_alternative ps) e).2.1
      (recordPhase cfg (afterEff id (setProblemSize st 1 ps) 1).tune ps
        (if 1 < cfg.stages then (0 : Int) else 0)
        ((blockParent (setProblemSize st 1 ps) 1).tune.current_alternative ps) e).2.2).2.2
      ≠ .crash := by
    rw [hrec]
    exact hnc2
  obtain ⟨hout, htimes⟩ := benchCall_invoked_times cfg (setProblemSize st 1 ps) 1 ps
    (if 1 < cfg.stages then (0 : Int) else 0) e id f hfc hblocked hnc
  refine ⟨⟨nm, f, hnm, ?_⟩, ?_, ?_⟩
  · rw [hcall]
    exact hout
  · rw [hcall, htimes, hrec]
    dsimp only
    exact hsetT
  · intro hcond
    rcases hcond with hcf | ⟨hK2, hnr, hbel⟩
    · apply htail
      unfold decidePhase
      rw [if_neg hcf]
    · by_cases hng : (t + 1) % cfg.total_alternatives = 0 ∧
          min cfg.prune_after_round cfg.rounds ≤ (t + 1) / cfg.total_alternatives
      · apply htail
        have hbelR : allBelow cfg
            ((rrRecState st.tune ps (t % cfg.total_alternatives) e).times ps) = true := by
          rw [hsetT]
          exact hbel
        rw [hng.1]
        exact decidePhase_all_live cfg (rrRecState st.tune ps (t % cfg.total_alternatives) e)
          ps ((t + 1) / cfg.total_alternatives) hK2 hrecT_len hng.2 hnr hbelR
      · apply htail
        unfold decidePhase
        rw [if_neg hng]

theorem bestOfCall_register_congr (cfg : BestOfConfig) (st st' : EngineState)
    (execId ps : Nat) (stageArg : Int) (e : ℚ) (eff : EngineState → EngineState)
    (h : register st execId = register st' execId) :
    bestOfCall cfg st execId ps stageArg e eff
      = bestOfCall cfg st' execId ps stageArg e eff := by
  unfold bestOfCall
  rw [h]

theorem register_init_eq (cfg : BestOfConfig) (execId : Nat) :
    register (initEngine cfg) execId
      = register (register (initEngine cfg) execId).2 execId := by
  have hfound : (register (initEngine cfg) execId).2.executions execId = some 1 := by
    show (if execId = execId then some 1 else none) = some 1
    rw [if_pos rfl]
  have h1 : register (initEngine cfg) execId
      = (1, (register (initEngine cfg) execId).2) := rfl
  rw [register_found _ _ _ hfound]
  exact h1

theorem rrShape_init (cfg : BestOfConfig) (execId ps : Nat) :
    rrShape cfg execId ps (register (initEngine cfg) execId).2 0 := by
  refine ⟨rfl, rfl, ?_, rfl, rfl, fun k => rfl, rfl, ?_, ?_, ?_, ?_⟩
  · show (if execId = execId then some 1 else none) = some 1
    rw [if_pos rfl]
  · exact (Nat.zero_mod _).symm
  · exact (Nat.zero_div _).symm
  · show (List.replicate cfg.total_alternatives ([] : List ℚ)).length = _
    simp
  · intro j hj
    show ((List.replicate cfg.total_alternatives ([] : List ℚ))[j]?.getD []).length
        = rrCount 0 cfg.total_alternatives j
    rw [List.getElem?_replicate, if_pos hj]
    show ([] : List ℚ).length = rrCount 0 cfg.total_alternatives j
    unfold rrCount
    simp

theorem afterCalls_succ (cfg : BestOfConfig) (execId ps : Nat) (ts : List ℚ) (t : Nat)
    (ht : t < ts.length) :
    afterCalls cfg execId ps ts (t + 1)
      = (bestOfCall cfg (afterCalls cfg execId ps ts t) execId ps 0
          (ts[t]?.getD 0) id).2 := by
  unfold afterCalls runCalls
  rw [List.take_succ, List.getElem?_eq_getElem ht]
  simp only [Option.toList_some, List.map_append, List.map_cons, List.map_nil,
    List.foldl_append, List.foldl_cons, List.foldl_nil, Option.getD_some]

theorem rrShape_run (cfg : BestOfConfig) (execId ps : Nat) (ts : List ℚ)
    (hv : cfg.valid = true) (hs : cfg.stages = 1) (hK2 : 2 ≤ cfg.total_alternatives)
    (t : Nat) (h1 : 1 ≤ t) (hlen : t ≤ ts.length)
    (hrt : t < cfg.total_alternatives * cfg.rounds)
    (hlive : ∀ r, min cfg.prune_after_round cfg.rounds ≤ r →
      r * cfg.total_alternatives ≤ t →
      allBelow cfg ((afterCalls cfg execId ps ts
        (r * cfg.total_alternatives)).tune.times ps) = true) :
    rrShape cfg execId ps (afterCalls cfg execId ps ts t) t := by
  induction t with
  | zero => omega
  | succ n ih =>
    rcases Nat.eq_zero_or_pos n with hn0 | hn1
    · subst hn0
      have h0 : afterCalls cfg execId ps ts 0 = initEngine cfg := rfl
      rw [afterCalls_succ cfg execId ps ts 0 (by omega), h0,
        bestOfCall_register_congr cfg (initEngine cfg)
          (register (initEngine cfg) execId).2 execId ps 0 (ts[0]?.getD 0) id
          (register_init_eq cfg execId)]
      refine (rrShape_step cfg execId ps _ 0 hv hs (by omega) (rrShape_init cfg execId ps)
        (ts[0]?.getD 0)).2.2 (Or.inl ?_)
      rintro ⟨hz, _⟩
      rw [Nat.mod_eq_of_lt (by omega)] at hz
      exact one_ne_zero hz
    · have hsh := ih (by omega) (by omega) (by omega)
        (fun r hr hrk => hlive r hr (Nat.le_succ_of_le hrk))
      have hstep := rrShape_step cfg execId ps (afterCalls cfg execId ps ts n) n hv hs
        (by omega) hsh (ts[n]?.getD 0)
      rw [afterCalls_succ cfg execId ps ts n (by omega)]
      apply hstep.2.2
      by_cases hg : (n + 1) % cfg.total_alternatives = 0 ∧
          min cfg.prune_after_round cfg.rounds ≤ (n + 1) / cfg.total_alternatives
      · right
        have hdvd : cfg.total_alternatives ∣ (n + 1) := Nat.dvd_of_mod_eq_zero hg.1
        have hmul : (n + 1) / cfg.total_alternatives * cfg.total_alternatives = n + 1 :=
          Nat.div_mul_cancel hdvd
        refine ⟨hK2, ?_, ?_⟩
        · intro heq
          rw [heq, Nat.mul_comm] at hmul
          rw [hmul] at hrt
          omega
        · have hl := hlive ((n + 1) / cfg.total_alternatives) hg.2 hmul.le
          rw [hmul, afterCalls_succ cfg execId ps ts n (by omega), hstep.2.1] at hl
          exact hl
      · exact Or.inl hg

/-- C4: on a fresh engine in single-stage mode (one call context, one problem
size, no nested tuned calls), the benchmarked dispatches follow the
round-robin cycle for as long as the round budget is not exhausted
(`t < K * rounds`) and no pruning evaluation reached so far has discarded an
alternative (at every decision point, every alternative's median lies within
the pruning threshold — with at least two alternatives this also rules out
the exactly-one-live selection): the `t`-th call (0-based) invokes the
alternative at index `t mod K`, appends its elapsed time to that
alternative's series for the problem size, and the cursor advances to
`(t + 1) mod K` with the round counter becoming `(t + 1) / K`, incrementing
exactly when the cursor wraps to 0. -/
theorem c4_round_robin (cfg : BestOfConfig) (execId ps : Nat) (ts : List ℚ) (t : Nat)
    (hv : cfg.valid = true) (hs : cfg.stages = 1) (hK : 2 ≤ cfg.total_alternatives)
    (hrt : t < cfg.total_alternatives * cfg.rounds)
    (hlen : t < ts.length)
    (hlive : ∀ r, min cfg.prune_after_round cfg.rounds ≤ r →
      r * cfg.total_alternatives ≤ t →
      allBelow cfg ((afterCalls cfg execId ps ts
        (r * cfg.total_alternatives)).tune.times ps) = true) :
    (∃ nm f, cfg.alternatives[t % cfg.total_alternatives]? = some (nm, .single f) ∧
      (bestOfCall cfg (afterCalls cfg execId ps ts t) execId ps 0 (ts[t]?.getD 0) id).1
        = .invoked f) ∧
    (afterCalls cfg execId ps ts (t + 1)).tune.times ps
      = ((afterCalls cfg execId ps ts t).tune.times ps).set (t % cfg.total_alternatives)
          (((afterCalls cfg execId ps ts t).tune.times ps)[t % cfg.total_alternatives]?.getD []
            ++ [ts[t]?.getD 0]) ∧
    (t + 1 < cfg.total_alternatives * cfg.rounds →
      ((t + 1) % cfg.total_alternatives = 0 →
        min cfg.prune_after_round cfg.rounds ≤ (t + 1) / cfg.total_alternatives →
        allBelow cfg ((afterCalls cfg execId ps ts (t + 1)).tune.times ps) = true) →
      (afterCalls cfg execId ps ts (t + 1)).tune.current_alternative ps
          = (t + 1) % cfg.total_alternatives ∧
      (afterCalls cfg execId ps ts (t + 1)).tune.current_round ps
          = (t + 1) / cfg.total_alternatives) := by
  rcases Nat.eq_zero_or_pos t with h0t | h1t
  · subst h0t
    have h0 : afterCalls cfg execId ps ts 0 = initEngine cfg := rfl
    have hcongr : bestOfCall cfg (initEngine cfg) execId ps 0 (ts[0]?.getD 0) id
        = bestOfCall cfg (register (initEngine cfg) execId).2 execId ps 0 (ts[0]?.getD 0) id :=
      bestOfCall_register_congr cfg (initEngine cfg) (register (initEngine cfg) execId).2
        execId ps 0 (ts[0]?.getD 0) id (register_init_eq cfg execId)
    have htr : (register (initEngine cfg) execId).2.tune = (initEngine cfg).tune :=
      register_tune _ _
    have hstep := rrShape_step cfg execId ps (register (initEngine cfg) execId).2 0 hv hs
      (by omega) (rrShape_init cfg execId ps) (ts[0]?.getD 0)
    refine ⟨?_, ?_, ?_⟩
    · rw [h0, hcongr]
      exact hstep.1
    · rw [afterCalls_succ cfg execId ps ts 0 hlen, h0, hcongr, hstep.2.1, htr]
    · intro h3 _
      rw [afterCalls_succ cfg execId ps ts 0 hlen, h0, hcongr]
      have hg1 : ¬((0 + 1) % cfg.total_alternatives = 0 ∧
          min cfg.prune_after_round cfg.rounds ≤ (0 + 1) / cfg.total_alternatives) := by
        rintro ⟨hz, _⟩
        rw [Nat.mod_eq_of_lt (by omega)] at hz
        exact one_ne_zero hz
      obtain ⟨_, _, _, _, _, _, _, hc, hr, _, _⟩ := hstep.2.2 (Or.inl hg1)
      exact ⟨hc, hr⟩
  · have hsh := rrShape_run cfg execId ps ts hv hs hK t h1t (le_of_lt hlen) hrt hlive
    have hstep := rrShape_step cfg execId ps (afterCalls cfg execId ps ts t) t hv hs
      (by omega) hsh (ts[t]?.getD 0)
    refine ⟨hstep.1, ?_, ?_⟩
    · rw [afterCalls_succ cfg execId ps ts t hlen]
      exact hstep.2.1
    · intro h3 hbelh
      rw [afterCalls_succ cfg execId ps ts t hlen]
      have hsh1 : rrShape cfg execId ps
          (bestOfCall cfg (afterCalls cfg execId ps ts t) execId ps 0
            (ts[t]?.getD 0) id).2 (t + 1) := by
        apply hstep.2.2
        by_cases hg : (t + 1) % cfg.total_alternatives = 0 ∧
            min cfg.prune_after_round cfg.rounds ≤ (t + 1) / cfg.total_alternatives
        · right
          have hdvd : cfg.total_alternatives ∣ (t + 1) := Nat.dvd_of_mod_eq_zero hg.1
          have hmul : (t + 1) / cfg.total_alternatives * cfg.total_alternatives = t + 1 :=
            Nat.div_mul_cancel hdvd
          refine ⟨hK, ?_, ?_⟩
          · intro heq
            rw [heq, Nat.mul_comm] at hmul
            rw [hmul] at h3
            omega
          · have hb := hbelh hg.1 hg.2
            rw [afterCalls_succ cfg execId ps ts t hlen, hstep.2.1] at hb
            exact hb
        · exact Or.inl hg
      obtain ⟨_, _, _, _, _, _, _, hc, hr, _, _⟩ := hsh1
      exact ⟨hc, hr⟩

/-- Registry used by the C4 witness: two single-stage alternatives,
`rounds = 2`, `pruning_speedup = 2`, `prune_after_round = 1`. The witness
run passes through the non-discarding pruning evaluation at the end of the
second call and exercises the third call, whose dispatch wraps back to
alternative 0. -/
def c4cfg : BestOfConfig :=
  { name := "w4", alternatives := [("a", .single 20), ("b", .single 21)],
    rounds := 2, pruning_speedup := 2, prune_after_round := 1, stages := 1 }

attribute [local semireducible] Rat.add Rat.mul Rat.sub Rat.inv in
theorem c4_witness :
    (∃ nm f, c4cfg.alternatives[2 % c4cfg.total_alternatives]? = some (nm, .single f) ∧
      (bestOfCall c4cfg (afterCalls c4cfg 0 0 [1, 1, 1] 2) 0 0 0
        (([1, 1, 1] : List ℚ)[2]?.getD 0) id).1 = .invoked f) ∧
    (afterCalls c4cfg 0 0 [1, 1, 1] (2 + 1)).tune.times 0
      = ((afterCalls c4cfg 0 0 [1, 1, 1] 2).tune.times 0).set (2 % c4cfg.total_alternatives)
          (((afterCalls c4cfg 0 0 [1, 1, 1] 2).tune.times 0)[2 %
            c4cfg.total_alternatives]?.getD [] ++ [([1, 1, 1] : List ℚ)[2]?.getD 0]) ∧
    (2 + 1 < c4cfg.total_alternatives * c4cfg.rounds →
      ((2 + 1) % c4cfg.total_alternatives = 0 →
        min c4cfg.prune_after_round c4cfg.rounds ≤ (2 + 1) / c4cfg.total_alternatives →
        allBelow c4cfg ((afterCalls c4cfg 0 0 [1, 1, 1] (2 + 1)).tune.times 0) = true) →
      (afterCalls c4cfg 0 0 [1, 1, 1] (2 + 1)).tune.current_alternative 0
          = (2 + 1) % c4cfg.total_alternatives ∧
      (afterCalls c4cfg 0 0 [1, 1, 1] (2 + 1)).tune.current_round 0
          = (2 + 1) / c4cfg.total_alternatives) :=
  c4_round_robin c4cfg 0 0 [1, 1, 1] 2 (by decide) rfl (by decide) (by decide) (by decide)
    (fun r hr hrk => by
      have h2 : c4cfg.total_alternatives = 2 := rfl
      have h3 : min c4cfg.prune_after_round c4cfg.rounds = 1 := rfl
      rw [h2] at hrk
      rw [h3] at hr
      have h1 : r = 1 := by omega
      subst h1
      decide)
